import Mathlib

/-!
# MatT: a column-major owning matrix (src/foundation/MatT.h)

Shallow embedding of the class template `MatT<T>` and a verification of its
contract.

Modelling conventions.

* `size_t` is a natural number; every `size_t` product and sum of the source
  is taken modulo `2 ^ 64` (`sizeMul`, `sizeAdd`).
* The free store is explicit state (`Heap T`): a list of array blocks, the
  address of a block being its position.  `new T[n]` appends a block,
  `delete[]` marks it dead.  A `MatT T` object is the triple of its three data
  members, `m_data` being the address held by the `boost::scoped_array<T>`
  (`none` for a null pointer).
* Every operation returns its result together with the heap it leaves behind,
  also when it stops early.  An operation stops early with
  `Fault.assertion` when an `assert` of the source fails, with
  `Fault.invalidAccess` when it would read or write outside a live array, and
  with `Fault.badAlloc` when `new` fails.
* Whether a given `new` succeeds, and what the fresh default-initialised
  storage holds, is not decided by the program; both are inputs
  (`NewArray T`).
-/

set_option autoImplicit false

/-! ## Definitions -/

/-- Product of two `size_t` values, as computed by the machine. -/
def sizeMul (a b : Nat) : Nat := (a * b) % 2 ^ 64

/-- Sum of two `size_t` values, as computed by the machine. -/
def sizeAdd (a b : Nat) : Nat := (a + b) % 2 ^ 64

/-- Ways in which an operation can stop before completing. -/
inductive Fault where
  | assertion
  | invalidAccess
  | badAlloc
  deriving DecidableEq, Repr

deriving instance DecidableEq for Except

/-- The free store: block `p` is `some cells` while the array at address `p` is live. -/
abbrev Heap (T : Type) := List (Option (List T))

/-- Result of an operation and the heap it leaves behind. -/
abbrev Outcome (T α : Type) := Except Fault α × Heap T

/-- The environment of one `new T[n]` expression: whether it succeeds and what
the fresh storage holds before it is written. -/
structure NewArray (T : Type) where
  succeeds : Bool
  indet : Nat → T

/-- The live array at address `p`, if any. -/
def Heap.block {T : Type} (h : Heap T) (p : Nat) : Option (List T) :=
  match h[p]? with
  | some (some cells) => some cells
  | _ => none

/-- Read of `ptr[i]`. -/
def Heap.load {T : Type} (h : Heap T) (ptr : Option Nat) (i : Nat) : Option T :=
  match ptr with
  | none => none
  | some p =>
    match h.block p with
    | none => none
    | some cells => cells[i]?

/-- Write `ptr[i] = v`. -/
def Heap.store {T : Type} (h : Heap T) (ptr : Option Nat) (i : Nat) (v : T) : Option (Heap T) :=
  match ptr with
  | none => none
  | some p =>
    match h.block p with
    | none => none
    | some cells => if i < cells.length then some (h.set p (some (cells.set i v))) else none

/-- Placement of a fresh array holding `cells`. -/
def Heap.alloc {T : Type} (h : Heap T) (cells : List T) : Nat × Heap T :=
  (h.length, h ++ [some cells])

/-- Array deletion `delete[] ptr` (a null pointer is ignored). -/
def Heap.release {T : Type} (h : Heap T) (ptr : Option Nat) : Heap T :=
  match ptr with
  | none => h
  | some p => h.set p none

/-- Expression `new T[n]`: default-initialised storage. -/
def newArray {T : Type} (nw : NewArray T) (n : Nat) (h : Heap T) : Outcome T (Option Nat) :=
  if nw.succeeds then
    ((.ok (some (h.alloc ((List.range n).map nw.indet)).1), (h.alloc ((List.range n).map nw.indet)).2))
  else (.error Fault.badAlloc, h)

/-- Expression `new T[n]()`: value-initialised storage, every element `T()`. -/
def newArrayValueInit {T : Type} [Inhabited T] (nw : NewArray T) (n : Nat) (h : Heap T) :
    Outcome T (Option Nat) :=
  if nw.succeeds then
    ((.ok (some (h.alloc (List.replicate n default)).1), (h.alloc (List.replicate n default)).2))
  else (.error Fault.badAlloc, h)

/-- The statement `for (size_t i = 0; i < len; ++i) body(i);`, stopping at the first fault. -/
def forLoop {T : Type} (body : Nat → Heap T → Outcome T Unit) : Nat → Heap T → Outcome T Unit
  | 0, h => (.ok (), h)
  | len + 1, h =>
    match forLoop body len h with
    | (.ok _, h1) => body len h1
    | (.error e, h1) => (.error e, h1)

/-- Statement `ptr[i] = v;`. -/
def storeAt {T : Type} (ptr : Option Nat) (i : Nat) (v : T) (h : Heap T) : Outcome T Unit :=
  match h.store ptr i v with
  | some h1 => (.ok (), h1)
  | none => (.error Fault.invalidAccess, h)

/-- Statement `dst[i] = src[i];` between two arrays of the free store. -/
def copyAt {T : Type} (dst src : Option Nat) (i : Nat) (h : Heap T) : Outcome T Unit :=
  match h.load src i with
  | none => (.error Fault.invalidAccess, h)
  | some v => storeAt dst i v h

/-- Statement `dst[i] = op(dst[i], src[i]);`, the shape of `+=` and `-=` on elements. -/
def combineAt {T : Type} (op : T → T → T) (dst src : Option Nat) (i : Nat) (h : Heap T) :
    Outcome T Unit :=
  match h.load src i with
  | none => (.error Fault.invalidAccess, h)
  | some r =>
    match h.load dst i with
    | none => (.error Fault.invalidAccess, h)
    | some l => storeAt dst i (op l r) h

/-- Statement `dst[i] = op(dst[i]);`, the shape of `*= scalar` on elements. -/
def updateAt {T : Type} (op : T → T) (dst : Option Nat) (i : Nat) (h : Heap T) : Outcome T Unit :=
  match h.load dst i with
  | none => (.error Fault.invalidAccess, h)
  | some l => storeAt dst i (op l) h

/-- Statement `m_data[i] = static_cast<T>(data[i]);` of the external-buffer
constructor; `data` is the caller's array. -/
def castAt {T OT : Type} (cast : OT → T) (dst : Option Nat) (data : List OT) (i : Nat)
    (h : Heap T) : Outcome T Unit :=
  match data[i]? with
  | none => (.error Fault.invalidAccess, h)
  | some x => storeAt dst i (cast x) h

/-- Conversion of a `double` to `int`, on a `double` holding the rational `x`:
the fractional part is discarded (truncation toward zero). -/
def doubleToInt (x : ℚ) : Int := Int.tdiv x.num x.den

/-- The data members of `MatT<T>`. -/
structure MatT (T : Type) where
  m_rows : Nat
  m_cols : Nat
  m_data : Option Nat
  deriving DecidableEq, Repr

namespace MatT

variable {T : Type}

/-- Member `rows()`. -/
def rows (m : MatT T) : Nat := m.m_rows

/-- Member `cols()`. -/
def cols (m : MatT T) : Nat := m.m_cols

/-- Member `data()`. -/
def data (m : MatT T) : Option Nat := m.m_data

/-- The column-major offset `row + col * m_rows` computed by `operator()`. -/
def offset (m : MatT T) (row col : Nat) : Nat := sizeAdd row (sizeMul col m.m_rows)

/-- Member `operator()(row, col) const`: the element read. -/
def get (m : MatT T) (row col : Nat) (h : Heap T) : Except Fault T :=
  if row < m.m_rows ∧ col < m.m_cols then
    match h.load m.m_data (m.offset row col) with
    | some v => .ok v
    | none => .error Fault.invalidAccess
  else .error Fault.assertion

/-- Member `operator()(row, col)` used as an lvalue: `m(row, col) = v`. -/
def put (m : MatT T) (row col : Nat) (v : T) (h : Heap T) : Outcome T Unit :=
  if row < m.m_rows ∧ col < m.m_cols then storeAt m.m_data (m.offset row col) v h
  else (.error Fault.assertion, h)

/-- Constructor `MatT()`. -/
def ctor : MatT T := { m_rows := 0, m_cols := 0, m_data := none }

/-- Constructor `MatT(rows, cols)`. -/
def ctorSized [Inhabited T] (nw : NewArray T) (rows cols : Nat) (h : Heap T) :
    Outcome T (MatT T) :=
  match newArrayValueInit nw (sizeMul rows cols) h with
  | (.error e, h1) => (.error e, h1)
  | (.ok p, h1) => (.ok { m_rows := rows, m_cols := cols, m_data := p }, h1)

/-- Constructor `MatT(rows, cols, initialValue)`. -/
def ctorFill (nw : NewArray T) (rows cols : Nat) (initialValue : T) (h : Heap T) :
    Outcome T (MatT T) :=
  match newArray nw (sizeMul rows cols) h with
  | (.error e, h1) => (.error e, h1)
  | (.ok p, h1) =>
    match forLoop (fun i => storeAt p i initialValue) (sizeMul rows cols) h1 with
    | (.error e, h2) => (.error e, h2)
    | (.ok _, h2) => (.ok { m_rows := rows, m_cols := cols, m_data := p }, h2)

/-- Constructor `MatT(rows, cols, const OT* data)`; `cast` is `static_cast<T>` on `OT`. -/
def ctorData {OT : Type} (cast : OT → T) (nw : NewArray T) (rows cols : Nat) (data : List OT)
    (h : Heap T) : Outcome T (MatT T) :=
  match newArray nw (sizeMul rows cols) h with
  | (.error e, h1) => (.error e, h1)
  | (.ok p, h1) =>
    match forLoop (castAt cast p data) (sizeMul rows cols) h1 with
    | (.error e, h2) => (.error e, h2)
    | (.ok _, h2) => (.ok { m_rows := rows, m_cols := cols, m_data := p }, h2)

/-- Constructor `MatT(const MatT& other)`. -/
def ctorCopy (nw : NewArray T) (other : MatT T) (h : Heap T) : Outcome T (MatT T) :=
  match newArray nw (sizeMul other.rows other.cols) h with
  | (.error e, h1) => (.error e, h1)
  | (.ok p, h1) =>
    match forLoop (copyAt p other.data) (sizeMul other.rows other.cols) h1 with
    | (.error e, h2) => (.error e, h2)
    | (.ok _, h2) => (.ok { m_rows := other.rows, m_cols := other.cols, m_data := p }, h2)

/-- Constructor template `MatT(const MatT<OT>& other)`.  Its body binds
`const T* otherData = other.data()` and copies `otherData[i]` with no cast, so
it is well-formed only where `const OT*` converts to `const T*`; the embedding
is therefore at `OT = T`, where the body is that of the copy constructor. -/
def ctorConv (nw : NewArray T) (other : MatT T) (h : Heap T) : Outcome T (MatT T) :=
  match newArray nw (sizeMul other.rows other.cols) h with
  | (.error e, h1) => (.error e, h1)
  | (.ok p, h1) =>
    match forLoop (copyAt p other.data) (sizeMul other.rows other.cols) h1 with
    | (.error e, h2) => (.error e, h2)
    | (.ok _, h2) => (.ok { m_rows := other.rows, m_cols := other.cols, m_data := p }, h2)

/-- Destructor: the `scoped_array` member deletes its array. -/
def destroy (m : MatT T) (h : Heap T) : Heap T := h.release m.m_data

/-- Member `swap(other)` on two distinct objects: returns the new `*this` and
the new `other`.  The three exchanges of the source, in order. -/
def swap (self other : MatT T) : MatT T × MatT T :=
  let tmp := self.m_rows
  let self1 : MatT T := { self with m_rows := other.m_rows }
  let other1 : MatT T := { other with m_rows := tmp }
  let tmp := self1.m_cols
  let self2 : MatT T := { self1 with m_cols := other1.m_cols }
  let other2 : MatT T := { other1 with m_cols := tmp }
  ({ self2 with m_data := other2.m_data }, { other2 with m_data := self2.m_data })

/-- Member `operator=(const MatT& other)`: `MatT(other).swap(*this)`, then the
temporary is destroyed.  Returns the new `*this`.  `other` is read only while
the temporary is built, so passing `self` for it is self-assignment. -/
def assign (nw : NewArray T) (self other : MatT T) (h : Heap T) : Outcome T (MatT T) :=
  match ctorCopy nw other h with
  | (.error e, h1) => (.error e, h1)
  | (.ok tmp, h1) => (.ok (swap tmp self).2, (swap tmp self).1.destroy h1)

/-- Member template `operator=(const MatT<OT>& other)`, at `OT = T` as `ctorConv`. -/
def assignConv (nw : NewArray T) (self other : MatT T) (h : Heap T) : Outcome T (MatT T) :=
  match ctorConv nw other h with
  | (.error e, h1) => (.error e, h1)
  | (.ok tmp, h1) => (.ok (swap tmp self).2, (swap tmp self).1.destroy h1)

/-- Member `operator+=(rhs)`. -/
def addAssign [Add T] (self rhs : MatT T) (h : Heap T) : Outcome T Unit :=
  if self.m_rows = rhs.m_rows ∧ self.m_cols = rhs.m_cols then
    forLoop (combineAt (fun l r => l + r) self.m_data rhs.m_data) (sizeMul self.m_rows self.m_cols) h
  else (.error Fault.assertion, h)

/-- Member `operator-=(rhs)`. -/
def subAssign [Sub T] (self rhs : MatT T) (h : Heap T) : Outcome T Unit :=
  if self.m_rows = rhs.m_rows ∧ self.m_cols = rhs.m_cols then
    forLoop (combineAt (fun l r => l - r) self.m_data rhs.m_data) (sizeMul self.m_rows self.m_cols) h
  else (.error Fault.assertion, h)

/-- Member `operator*=(scalar)`. -/
def mulAssign [Mul T] (self : MatT T) (scalar : T) (h : Heap T) : Outcome T Unit :=
  forLoop (updateAt (fun l => l * scalar) self.m_data) (sizeMul self.m_rows self.m_cols) h

/-- Member `fill(value)`. -/
def fill (self : MatT T) (value : T) (h : Heap T) : Outcome T Unit :=
  forLoop (fun i => storeAt self.m_data i value) (sizeMul self.m_rows self.m_cols) h

/-- Free `operator*(const MatT<T>& mat, double scalar)`: `MatT<T> res(mat);
res *= scalar; return res;`.  `D` stands for `double`; `conv` is the implicit
conversion of the `double` argument to the parameter type `T` of `operator*=`.
The local `res` is returned in place (no further copy on return). -/
def mulScalar {D : Type} [Mul T] (conv : D → T) (nw : NewArray T) (mat : MatT T) (scalar : D)
    (h : Heap T) : Outcome T (MatT T) :=
  match ctorCopy nw mat h with
  | (.error e, h1) => (.error e, h1)
  | (.ok res, h1) =>
    match res.mulAssign (conv scalar) h1 with
    | (.error e, h2) => (.error e, h2)
    | (.ok _, h2) => (.ok res, h2)

/-- Free `operator*(double scalar, const MatT<T>& mat)`. -/
def scalarMul {D : Type} [Mul T] (conv : D → T) (nw : NewArray T) (scalar : D) (mat : MatT T)
    (h : Heap T) : Outcome T (MatT T) :=
  match ctorCopy nw mat h with
  | (.error e, h1) => (.error e, h1)
  | (.ok res, h1) =>
    match res.mulAssign (conv scalar) h1 with
    | (.error e, h2) => (.error e, h2)
    | (.ok _, h2) => (.ok res, h2)

/-- The elements of `m` in storage order: the array `m_data` points to (no
elements for a null pointer), or `none` when the pointer is dangling. -/
def elems (m : MatT T) (h : Heap T) : Option (List T) :=
  match m.m_data with
  | none => some []
  | some p => h.block p

/-- The heap in which the array of `m` holds `cells`; for a null `m_data`
there is no array and the heap is as it was. -/
def setElems (m : MatT T) (cells : List T) (h : Heap T) : Heap T :=
  match m.m_data with
  | none => h
  | some p => h.set p (some cells)

/-- Class invariant: the owned array is live and holds `m_rows * m_cols`
elements (the product taken in `size_t`). -/
def Valid (m : MatT T) (h : Heap T) : Prop :=
  (m.elems h).map List.length = some (sizeMul m.m_rows m.m_cols)

instance (m : MatT T) (h : Heap T) : Decidable (m.Valid h) := by
  unfold Valid; infer_instance

/-- Two different matrix objects: they do not hold the same array. -/
def Distinct (a b : MatT T) : Prop := a.m_data ≠ b.m_data ∨ a.m_data = none

instance (a b : MatT T) : Decidable (a.Distinct b) := by
  unfold Distinct; infer_instance

/-- The in-place operations of the class that write elements. -/
inductive Mutation (T : Type) where
  | fill (value : T)
  | addAssign (rhs : MatT T)
  | subAssign (rhs : MatT T)
  | mulAssign (scalar : T)
  | put (row col : Nat) (v : T)

/-- One in-place operation applied to `self`. -/
def Mutation.apply [Add T] [Sub T] [Mul T] (mu : Mutation T) (self : MatT T) (h : Heap T) :
    Outcome T Unit :=
  match mu with
  | .fill value => self.fill value h
  | .addAssign rhs => self.addAssign rhs h
  | .subAssign rhs => self.subAssign rhs h
  | .mulAssign scalar => self.mulAssign scalar h
  | .put row col v => self.put row col v h

/-- A sequence of in-place operations applied to `self`, stopping at the first fault. -/
def Mutation.applyAll [Add T] [Sub T] [Mul T] :
    List (Mutation T) → MatT T → Heap T → Outcome T Unit
  | [], _, h => (.ok (), h)
  | mu :: rest, self, h =>
    match mu.apply self h with
    | (.ok _, h1) => Mutation.applyAll rest self h1
    | (.error e, h1) => (.error e, h1)

end MatT

/-- Heap `h1` differs from `h` at most in the contents of the array `ptr`
points to: the same addresses, every array as live and as long as before, and
every array other than that of `ptr` unchanged. -/
def Heap.SameExcept {T : Type} (ptr : Option Nat) (h h1 : Heap T) : Prop :=
  h1.length = h.length ∧
  (∀ q, (h1.block q).map List.length = (h.block q).map List.length) ∧
  (∀ q, ptr ≠ some q → h1.block q = h.block q)

/-- A program state: the matrix objects in scope, by position, and the free store. -/
structure World (T : Type) where
  vars : List (MatT T)
  heap : Heap T

/-- The constructor calls and the mutating operations of the class.  An
operand is the position of an object in `World.vars`; a constructor call puts
the new object in scope at the end.  `ctorData` is taken at any source element
type `OT`. -/
inductive Op (T : Type) : Type 1 where
  | ctor
  | ctorSized (nw : NewArray T) (rows cols : Nat)
  | ctorFill (nw : NewArray T) (rows cols : Nat) (initialValue : T)
  | ctorData (OT : Type) (cast : OT → T) (nw : NewArray T) (rows cols : Nat) (data : List OT)
  | ctorCopy (nw : NewArray T) (other : Nat)
  | ctorConv (nw : NewArray T) (other : Nat)
  | assign (nw : NewArray T) (self other : Nat)
  | assignConv (nw : NewArray T) (self other : Nat)
  | fill (self : Nat) (value : T)
  | swap (self other : Nat)
  | addAssign (self rhs : Nat)
  | subAssign (self rhs : Nat)
  | mulAssign (self : Nat) (scalar : T)
  | put (self : Nat) (row col : Nat) (v : T)

/-- A constructor call: on success the new object comes into scope. -/
def World.construct {T : Type} (w : World T) (out : Outcome T (MatT T)) :
    Except Fault Unit × World T :=
  match out with
  | (.ok m, h1) => (.ok (), { vars := w.vars ++ [m], heap := h1 })
  | (.error e, h1) => (.error e, { vars := w.vars, heap := h1 })

/-- A call that yields a new state of the object at position `self`. -/
def World.replace {T : Type} (w : World T) (self : Nat) (out : Outcome T (MatT T)) :
    Except Fault Unit × World T :=
  match out with
  | (.ok m, h1) => (.ok (), { vars := w.vars.set self m, heap := h1 })
  | (.error e, h1) => (.error e, { vars := w.vars, heap := h1 })

/-- A call that writes elements only. -/
def World.mutate {T : Type} (w : World T) (out : Outcome T Unit) : Except Fault Unit × World T :=
  (out.1, { vars := w.vars, heap := out.2 })

/-- One operation.  An operand that names no object in scope is a use of an
object outside its lifetime. -/
def World.step {T : Type} [Inhabited T] [Add T] [Sub T] [Mul T] (w : World T) :
    Op T → Except Fault Unit × World T
  | .ctor => (.ok (), { vars := w.vars ++ [MatT.ctor], heap := w.heap })
  | .ctorSized nw rows cols => w.construct (MatT.ctorSized nw rows cols w.heap)
  | .ctorFill nw rows cols v => w.construct (MatT.ctorFill nw rows cols v w.heap)
  | .ctorData _ cast nw rows cols data =>
    w.construct (MatT.ctorData cast nw rows cols data w.heap)
  | .ctorCopy nw other =>
    match w.vars[other]? with
    | some b => w.construct (MatT.ctorCopy nw b w.heap)
    | none => (.error Fault.invalidAccess, w)
  | .ctorConv nw other =>
    match w.vars[other]? with
    | some b => w.construct (MatT.ctorConv nw b w.heap)
    | none => (.error Fault.invalidAccess, w)
  | .assign nw self other =>
    match w.vars[self]?, w.vars[other]? with
    | some a, some b => w.replace self (MatT.assign nw a b w.heap)
    | _, _ => (.error Fault.invalidAccess, w)
  | .assignConv nw self other =>
    match w.vars[self]?, w.vars[other]? with
    | some a, some b => w.replace self (MatT.assignConv nw a b w.heap)
    | _, _ => (.error Fault.invalidAccess, w)
  | .fill self value =>
    match w.vars[self]? with
    | some a => w.mutate (a.fill value w.heap)
    | none => (.error Fault.invalidAccess, w)
  | .swap self other =>
    match w.vars[self]?, w.vars[other]? with
    | some a, some b =>
      (.ok (), { vars := (w.vars.set self (MatT.swap a b).1).set other (MatT.swap a b).2,
                 heap := w.heap })
    | _, _ => (.error Fault.invalidAccess, w)
  | .addAssign self rhs =>
    match w.vars[self]?, w.vars[rhs]? with
    | some a, some b => w.mutate (a.addAssign b w.heap)
    | _, _ => (.error Fault.invalidAccess, w)
  | .subAssign self rhs =>
    match w.vars[self]?, w.vars[rhs]? with
    | some a, some b => w.mutate (a.subAssign b w.heap)
    | _, _ => (.error Fault.invalidAccess, w)
  | .mulAssign self scalar =>
    match w.vars[self]? with
    | some a => w.mutate (a.mulAssign scalar w.heap)
    | none => (.error Fault.invalidAccess, w)
  | .put self row col v =>
    match w.vars[self]? with
    | some a => w.mutate (a.put row col v w.heap)
    | none => (.error Fault.invalidAccess, w)

/-- A sequence of operations.  A failed `new` is an exception the caller may
handle, so the run goes on after it; any other fault ends the run. -/
def World.run {T : Type} [Inhabited T] [Add T] [Sub T] [Mul T] (w : World T) :
    List (Op T) → Except Fault Unit × World T
  | [] => (.ok (), w)
  | op :: rest =>
    match w.step op with
    | (.ok _, w1) => w1.run rest
    | (.error Fault.badAlloc, w1) => w1.run rest
    | (.error e, w1) => (.error e, w1)

/-- Every object in scope satisfies the class invariant, and no two objects
hold the same array. -/
def World.Inv {T : Type} (w : World T) : Prop :=
  (∀ m, m ∈ w.vars → m.Valid w.heap) ∧
  (∀ (i j : Nat) (a b : MatT T), i ≠ j → w.vars[i]? = some a → w.vars[j]? = some b →
    a.Distinct b)

/-- What a constructor call for `n` elements can leave behind, `m` being the
object it is to build: either `new` failed and the heap is as before, or one
array of `n` elements was placed at the next address and only that array was
written, the call ending with `m` or with a fault. -/
def CtorPost {T : Type} (n : Nat) (m : MatT T) (h : Heap T) (out : Outcome T (MatT T)) : Prop :=
  (out.2 = h ∧ ∃ e, out.1 = .error e) ∨
  (∃ cells : List T, cells.length = n ∧
    Heap.SameExcept (some h.length) (h ++ [some cells]) out.2 ∧
    (out.1 = .ok m ∨ ∃ e, out.1 = .error e))

/-! ## Theorems -/

section HeapLemmas

variable {T : Type}

theorem Heap.block_lt {h : Heap T} {p : Nat} {cells : List T} (hp : h.block p = some cells) :
    p < h.length := by
  unfold Heap.block at hp
  by_contra hlt
  rw [List.getElem?_eq_none (Nat.le_of_not_lt hlt)] at hp
  simp at hp

theorem Heap.block_eq_some_iff {h : Heap T} {p : Nat} {cells : List T} :
    h.block p = some cells ↔ h[p]? = some (some cells) := by
  unfold Heap.block
  constructor
  · intro hp
    split at hp
    · simp_all
    · simp at hp
  · intro hp
    simp [hp]

theorem Heap.block_set_self (h : Heap T) {p : Nat} (x : Option (List T)) (hp : p < h.length) :
    Heap.block (h.set p x) p = x := by
  unfold Heap.block
  rw [List.getElem?_set_self hp]
  cases x <;> rfl

theorem Heap.block_set_ne (h : Heap T) {p q : Nat} (x : Option (List T)) (hpq : p ≠ q) :
    Heap.block (h.set p x) q = h.block q := by
  unfold Heap.block
  rw [List.getElem?_set_ne hpq]

theorem Heap.set_block_self {h : Heap T} {p : Nat} {cells : List T}
    (hp : h.block p = some cells) : h.set p (some cells) = h := by
  have hlt := Heap.block_lt hp
  rw [Heap.block_eq_some_iff] at hp
  apply List.ext_getElem?
  intro q
  by_cases hq : p = q
  · subst hq
    rw [List.getElem?_set_self hlt, hp]
  · rw [List.getElem?_set_ne hq]

theorem Heap.block_append_left (h : Heap T) (l : Heap T) {p : Nat} (hp : p < h.length) :
    Heap.block (h ++ l) p = h.block p := by
  unfold Heap.block
  rw [List.getElem?_append_left hp]

theorem Heap.block_append_new (h : Heap T) (cells : List T) :
    Heap.block (h ++ [some cells]) h.length = some cells := by
  unfold Heap.block
  rw [List.getElem?_append_right (Nat.le_refl _)]
  simp

end HeapLemmas

section LoopLemmas

variable {T : Type}

/-- Entry `i` of a partly rewritten array is still the old one. -/
theorem splice_getElem? (news cells : List T) (i : Nat) (hi : i ≤ news.length) :
    (news.take i ++ cells.drop i)[i]? = cells[i]? := by
  have hl : (news.take i).length = i := by simp [List.length_take, Nat.min_eq_left hi]
  rw [List.getElem?_append_right (by omega), hl]
  simp

/-- Rewriting entry `i` extends the rewritten part by one. -/
theorem splice_set (news cells : List T) (i : Nat) (hi : i < news.length)
    (hlen : news.length = cells.length) :
    (news.take i ++ cells.drop i).set i (news.get ⟨i, hi⟩) =
      news.take (i + 1) ++ cells.drop (i + 1) := by
  have hl : (news.take i).length = i := by
    simp [List.length_take, Nat.min_eq_left (Nat.le_of_lt hi)]
  have hl1 : (news.take (i + 1)).length = i + 1 := by
    simp [List.length_take, Nat.min_eq_left hi]
  apply List.ext_getElem?
  intro j
  rw [List.getElem?_set]
  by_cases hji : i = j
  · subst hji
    have h1 : i < (news.take i ++ cells.drop i).length := by
      rw [List.length_append, hl, List.length_drop]; omega
    rw [if_pos rfl, if_pos h1, List.getElem?_append_left (by omega), List.getElem?_take,
      if_pos (Nat.lt_succ_self i)]
    simp [List.getElem?_eq_getElem hi]
  · rw [if_neg hji]
    by_cases hlt : j < i
    · rw [List.getElem?_append_left (by omega), List.getElem?_append_left (by omega),
        List.getElem?_take, List.getElem?_take, if_pos hlt, if_pos (by omega)]
    · rw [List.getElem?_append_right (by omega), List.getElem?_append_right (by omega), hl, hl1]
      simp only [List.getElem?_drop]
      congr 1
      omega

theorem splice_length (news cells : List T) (i : Nat) (hlen : news.length = cells.length) :
    (news.take i ++ cells.drop i).length = cells.length := by
  rw [List.length_append, List.length_take, List.length_drop]
  omega

theorem splice_full (news cells : List T) (hlen : news.length = cells.length) :
    news.take cells.length ++ cells.drop cells.length = news := by
  rw [List.drop_length, ← hlen, List.take_length, List.append_nil]

/-- A store into a live array, inside its bounds, succeeds. -/
theorem storeAt_block {h : Heap T} {p : Nat} {cells : List T} (hp : h.block p = some cells)
    {i : Nat} (hi : i < cells.length) (v : T) :
    storeAt (some p) i v h = (.ok (), h.set p (some (cells.set i v))) := by
  simp [storeAt, Heap.store, hp, hi]

theorem Heap.load_block {h : Heap T} {p : Nat} {cells : List T} (hp : h.block p = some cells)
    (i : Nat) : h.load (some p) i = cells[i]? := by
  simp [Heap.load, hp]

/-- While the first `i` entries of the array at `p` have been rewritten, a read
of entry `i` through any pointer sees what it saw before the loop. -/
theorem Heap.load_splice {h : Heap T} {p : Nat} {cells : List T} (hp : h.block p = some cells)
    (news : List T) (i : Nat) (hi : i ≤ news.length) (q : Option Nat) :
    Heap.load (h.set p (some (news.take i ++ cells.drop i))) q i = h.load q i := by
  cases q with
  | none => rfl
  | some q =>
    by_cases hq : p = q
    · subst hq
      rw [Heap.load_block (Heap.block_set_self h _ (Heap.block_lt hp)), Heap.load_block hp,
        splice_getElem? news cells i hi]
    · simp only [Heap.load, Heap.block_set_ne h _ hq]

/-- One iteration that rewrites entry `i` of the array at `p`. -/
theorem storeAt_splice {h : Heap T} {p : Nat} {cells : List T} (hp : h.block p = some cells)
    (news : List T) (hlen : news.length = cells.length) (i : Nat) (hi : i < news.length) :
    storeAt (some p) i (news.get ⟨i, hi⟩) (h.set p (some (news.take i ++ cells.drop i))) =
      (.ok (), h.set p (some (news.take (i + 1) ++ cells.drop (i + 1)))) := by
  have hb := Heap.block_set_self h (some (news.take i ++ cells.drop i)) (Heap.block_lt hp)
  rw [storeAt_block hb (by rw [splice_length news cells i hlen]; omega), List.set_set,
    splice_set news cells i hi hlen]

/-- A loop whose iteration `i` rewrites entry `i` of the array at `p` with
`news[i]` runs to completion and leaves `news` in that array, all other
arrays untouched. -/
theorem forLoop_rewrite (body : Nat → Heap T → Outcome T Unit) {h : Heap T} {p : Nat}
    {cells : List T} (hp : h.block p = some cells) (news : List T)
    (hlen : news.length = cells.length)
    (hbody : ∀ i, i < news.length →
      body i (h.set p (some (news.take i ++ cells.drop i))) =
        (.ok (), h.set p (some (news.take (i + 1) ++ cells.drop (i + 1))))) :
    forLoop body cells.length h = (.ok (), h.set p (some news)) := by
  have key : ∀ n, n ≤ news.length →
      forLoop body n h = (.ok (), h.set p (some (news.take n ++ cells.drop n))) := by
    intro n
    induction n with
    | zero =>
      intro _
      simp [forLoop, Heap.set_block_self hp]
    | succ n ih =>
      intro hn
      rw [forLoop, ih (by omega)]
      exact hbody n (by omega)
  rw [key cells.length (by omega), splice_full news cells hlen]

/-- The loop of `fill` and of the fill constructor. -/
theorem forLoop_storeAt {h : Heap T} {p : Nat} {cells : List T} (hp : h.block p = some cells)
    (v : T) :
    forLoop (fun i => storeAt (some p) i v) cells.length h =
      (.ok (), h.set p (some (List.replicate cells.length v))) := by
  apply forLoop_rewrite _ hp _ (List.length_replicate _ _)
  intro i hi
  have hv : v = (List.replicate cells.length v).get ⟨i, hi⟩ := by simp
  conv => lhs; arg 3; rw [hv]
  exact storeAt_splice hp _ (List.length_replicate _ _) i hi

/-- The loop of the external-buffer constructor. -/
theorem forLoop_castAt {OT : Type} (cast : OT → T) {h : Heap T} {p : Nat} {cells : List T}
    (hp : h.block p = some cells) (data : List OT) (hdata : cells.length ≤ data.length) :
    forLoop (castAt cast (some p) data) cells.length h =
      (.ok (), h.set p (some ((data.take cells.length).map cast))) := by
  have hlen : ((data.take cells.length).map cast).length = cells.length := by
    simp [List.length_take, Nat.min_eq_left hdata]
  apply forLoop_rewrite _ hp _ hlen
  intro i hi
  have hid : i < data.length := by omega
  have hv : cast (data.get ⟨i, hid⟩) = ((data.take cells.length).map cast).get ⟨i, hi⟩ := by
    simp
  unfold castAt
  rw [List.getElem?_eq_getElem hid]
  simp only []
  have := storeAt_splice hp _ hlen i hi
  rw [← hv] at this
  exact this

/-- The loop of the copy constructor. -/
theorem forLoop_copyAt {h : Heap T} {p q : Nat} {cells scells : List T}
    (hp : h.block p = some cells) (hq : h.block q = some scells)
    (hlen : scells.length = cells.length) :
    forLoop (copyAt (some p) (some q)) cells.length h = (.ok (), h.set p (some scells)) := by
  apply forLoop_rewrite _ hp _ hlen
  intro i hi
  unfold copyAt
  rw [Heap.load_splice hp scells i (Nat.le_of_lt hi), Heap.load_block hq,
    List.getElem?_eq_getElem hi]
  exact storeAt_splice hp _ hlen i hi

/-- The loop of `+=` and `-=`. -/
theorem forLoop_combineAt (op : T → T → T) {h : Heap T} {p q : Nat} {cells rcells : List T}
    (hp : h.block p = some cells) (hq : h.block q = some rcells)
    (hlen : rcells.length = cells.length) :
    forLoop (combineAt op (some p) (some q)) cells.length h =
      (.ok (), h.set p (some (List.zipWith op cells rcells))) := by
  have hlen2 : (List.zipWith op cells rcells).length = cells.length := by
    simp [List.length_zipWith, hlen]
  apply forLoop_rewrite _ hp _ hlen2
  intro i hi
  have hic : i < cells.length := by omega
  have hir : i < rcells.length := by omega
  have hv : op (cells.get ⟨i, hic⟩) (rcells.get ⟨i, hir⟩) =
      (List.zipWith op cells rcells).get ⟨i, hi⟩ := by simp
  unfold combineAt
  rw [Heap.load_splice hp _ i (Nat.le_of_lt hi), Heap.load_block hq,
    List.getElem?_eq_getElem hir]
  simp only []
  rw [Heap.load_splice hp _ i (Nat.le_of_lt hi), Heap.load_block hp,
    List.getElem?_eq_getElem hic]
  simp only []
  have := storeAt_splice hp _ hlen2 i hi
  rw [← hv] at this
  exact this

/-- The loop of `*=`. -/
theorem forLoop_updateAt (op : T → T) {h : Heap T} {p : Nat} {cells : List T}
    (hp : h.block p = some cells) :
    forLoop (updateAt op (some p)) cells.length h = (.ok (), h.set p (some (cells.map op))) := by
  have hlen : (cells.map op).length = cells.length := List.length_map _ _
  apply forLoop_rewrite _ hp _ hlen
  intro i hi
  have hic : i < cells.length := by omega
  have hv : op (cells.get ⟨i, hic⟩) = (cells.map op).get ⟨i, hi⟩ := by simp
  unfold updateAt
  rw [Heap.load_splice hp _ i (Nat.le_of_lt hi), Heap.load_block hp,
    List.getElem?_eq_getElem hic]
  simp only []
  have := storeAt_splice hp _ hlen i hi
  rw [← hv] at this
  exact this

end LoopLemmas

section ConstructorLemmas

variable {T : Type}

theorem Heap.set_append_new (h : Heap T) (x y : Option (List T)) :
    (h ++ [x]).set h.length y = h ++ [y] := by
  apply List.ext_getElem?
  intro q
  by_cases hq : h.length = q
  · subst hq
    rw [List.getElem?_set_self (by simp), List.getElem?_append_right (Nat.le_refl _)]
    simp
  · rw [List.getElem?_set_ne hq]
    by_cases hlt : q < h.length
    · rw [List.getElem?_append_left hlt, List.getElem?_append_left hlt]
    · rw [List.getElem?_eq_none (by simp; omega), List.getElem?_eq_none (by simp; omega)]

theorem newArray_succeeds (indet : Nat → T) (n : Nat) (h : Heap T) :
    newArray ⟨true, indet⟩ n h =
      (.ok (some h.length), h ++ [some ((List.range n).map indet)]) := by
  simp [newArray, Heap.alloc]

theorem newArray_fails (indet : Nat → T) (n : Nat) (h : Heap T) :
    newArray ⟨false, indet⟩ n h = (.error Fault.badAlloc, h) := by
  simp [newArray]

/-- The column-major offset of a valid position, when `rows * cols` fits `size_t`. -/
theorem MatT.offset_eq (m : MatT T) (row col : Nat) (hsize : m.m_rows * m.m_cols < 2 ^ 64)
    (hrow : row < m.m_rows) (hcol : col < m.m_cols) :
    m.offset row col = row + col * m.m_rows ∧ row + col * m.m_rows < m.m_rows * m.m_cols := by
  have h1 : col * m.m_rows + m.m_rows ≤ m.m_cols * m.m_rows := by
    have := Nat.mul_le_mul_right m.m_rows (Nat.succ_le_of_lt hcol)
    rw [Nat.succ_mul] at this
    exact this
  have h2 : m.m_cols * m.m_rows = m.m_rows * m.m_cols := Nat.mul_comm _ _
  have h3 : row + col * m.m_rows < m.m_rows * m.m_cols := by omega
  refine ⟨?_, h3⟩
  unfold MatT.offset sizeMul sizeAdd
  rw [Nat.mod_eq_of_lt (a := col * m.m_rows) (by omega), Nat.mod_eq_of_lt (by omega)]

/-- Element read of a matrix whose array is known. -/
theorem MatT.get_of_block (m : MatT T) {h : Heap T} {p : Nat} {cells : List T}
    (hd : m.m_data = some p) (hp : h.block p = some cells) (row col : Nat)
    (hrow : row < m.m_rows) (hcol : col < m.m_cols) {x : T}
    (hx : cells[m.offset row col]? = some x) : m.get row col h = .ok x := by
  unfold MatT.get
  rw [if_pos ⟨hrow, hcol⟩, hd, Heap.load_block hp, hx]

theorem MatT.ctorSized_eq [Inhabited T] (indet : Nat → T) (rows cols : Nat) (h : Heap T) :
    MatT.ctorSized ⟨true, indet⟩ rows cols h =
      (.ok { m_rows := rows, m_cols := cols, m_data := some h.length },
        h ++ [some (List.replicate (sizeMul rows cols) default)]) := by
  simp [MatT.ctorSized, newArrayValueInit, Heap.alloc]

theorem MatT.ctorFill_eq (indet : Nat → T) (rows cols : Nat) (v : T) (h : Heap T) :
    MatT.ctorFill ⟨true, indet⟩ rows cols v h =
      (.ok { m_rows := rows, m_cols := cols, m_data := some h.length },
        h ++ [some (List.replicate (sizeMul rows cols) v)]) := by
  have hb := Heap.block_append_new h ((List.range (sizeMul rows cols)).map indet)
  have hl : ((List.range (sizeMul rows cols)).map indet).length = sizeMul rows cols := by simp
  have hloop := forLoop_storeAt hb v
  rw [hl, Heap.set_append_new] at hloop
  simp only [MatT.ctorFill, newArray_succeeds, hloop]

theorem MatT.ctorData_eq {OT : Type} (cast : OT → T) (indet : Nat → T) (rows cols : Nat)
    (data : List OT) (h : Heap T) (hdata : sizeMul rows cols ≤ data.length) :
    MatT.ctorData cast ⟨true, indet⟩ rows cols data h =
      (.ok { m_rows := rows, m_cols := cols, m_data := some h.length },
        h ++ [some ((data.take (sizeMul rows cols)).map cast)]) := by
  have hb := Heap.block_append_new h ((List.range (sizeMul rows cols)).map indet)
  have hl : ((List.range (sizeMul rows cols)).map indet).length = sizeMul rows cols := by simp
  have hloop := forLoop_castAt cast hb data (by rw [hl]; exact hdata)
  rw [hl, Heap.set_append_new] at hloop
  simp only [MatT.ctorData, newArray_succeeds, hloop]

end ConstructorLemmas

/-- C1: for every `rows` and `cols` and every caller array `data` that holds
at least `rows * cols` elements (an array in memory, so of fewer than `2 ^ 64`
elements), the external-buffer constructor succeeds, reports `rows` and
`cols`, and element access at every `row < rows`, `col < cols` returns
`data[row + col * rows]` converted to `T`: storage and access are
column-major with linear offset `row + col * rows`. -/
theorem MatT.ctorData_column_major {T OT : Type} (cast : OT → T) (indet : Nat → T)
    (rows cols : Nat) (data : List OT) (h : Heap T) (hdata : rows * cols ≤ data.length)
    (hmem : data.length < 2 ^ 64) :
    ∃ m h1, MatT.ctorData cast ⟨true, indet⟩ rows cols data h = (.ok m, h1) ∧
      m.rows = rows ∧ m.cols = cols ∧
      m.elems h1 = some ((data.take (rows * cols)).map cast) ∧
      ∀ row col, row < rows → col < cols →
        ∃ x, data[row + col * rows]? = some x ∧ m.offset row col = row + col * rows ∧
          m.get row col h1 = .ok (cast x) := by
  have hsize : rows * cols < 2 ^ 64 := Nat.lt_of_le_of_lt hdata hmem
  have hsz : sizeMul rows cols = rows * cols := Nat.mod_eq_of_lt hsize
  refine ⟨_, _, MatT.ctorData_eq cast indet rows cols data h (by omega), rfl, rfl, ?_, ?_⟩
  · rw [← hsz]
    exact Heap.block_append_new h _
  intro row col hrow hcol
  have hoff := MatT.offset_eq
    ({ m_rows := rows, m_cols := cols, m_data := some h.length } : MatT T) row col hsize hrow hcol
  have hlt : row + col * rows < data.length := Nat.lt_of_lt_of_le hoff.2 hdata
  refine ⟨data.get ⟨row + col * rows, hlt⟩, List.getElem?_eq_getElem hlt, hoff.1, ?_⟩
  apply MatT.get_of_block _ rfl (Heap.block_append_new h _) row col hrow hcol
  rw [hoff.1, List.getElem?_map, List.getElem?_take, if_pos (by rw [hsz]; exact hoff.2),
    List.getElem?_eq_getElem hlt]
  rfl

/-- Witness of `MatT.ctorData_column_major`: a 2x3 matrix over the caller's
array `[1, 2, 3, 4, 5, 6]`; position `(1, 2)` is at offset `1 + 2 * 2` and
reads 6, position `(0, 1)` reads 3. -/
theorem MatT.ctorData_column_major_witness :
    (2 * 3 ≤ [(1 : Int), 2, 3, 4, 5, 6].length ∧ [(1 : Int), 2, 3, 4, 5, 6].length < 2 ^ 64) ∧
    ∃ m h1, MatT.ctorData (fun x : Int => x) ⟨true, fun _ => 0⟩ 2 3 [1, 2, 3, 4, 5, 6] [] =
        (.ok m, h1) ∧
      m.rows = 2 ∧ m.cols = 3 ∧ m.get 1 2 h1 = .ok 6 ∧ m.get 0 1 h1 = .ok 3 := by
  refine ⟨by decide, ?_⟩
  obtain ⟨m, h1, he, hr, hc, _, hget⟩ :=
    MatT.ctorData_column_major (fun x : Int => x) (fun _ => 0) 2 3 [1, 2, 3, 4, 5, 6] []
      (by decide) (by decide)
  refine ⟨m, h1, he, hr, hc, ?_, ?_⟩
  · obtain ⟨x, hx, _, hg⟩ := hget 1 2 (by decide) (by decide)
    have hx6 : x = 6 := by
      have : some (6 : Int) = some x := hx
      injection this with this
      exact this.symm
    rw [hg, hx6]
  · obtain ⟨x, hx, _, hg⟩ := hget 0 1 (by decide) (by decide)
    have hx3 : x = 3 := by
      have : some (3 : Int) = some x := hx
      injection this with this
      exact this.symm
    rw [hg, hx3]

/-- C2: for every `r` and `c`, zero included, `MatT(r, c)` reports `rows() == r`
and `cols() == c`, and its array holds `r * c` elements (the `size_t` product),
every one equal to `T()`; when `r * c` fits `size_t`, every position
`row < r`, `col < c` reads `T()`. -/
theorem MatT.ctorSized_default {T : Type} [Inhabited T] (indet : Nat → T) (r c : Nat)
    (h : Heap T) :
    ∃ m h1, MatT.ctorSized ⟨true, indet⟩ r c h = (.ok m, h1) ∧
      m.rows = r ∧ m.cols = c ∧
      m.elems h1 = some (List.replicate (sizeMul r c) default) ∧
      (r * c < 2 ^ 64 → ∀ row col, row < r → col < c → m.get row col h1 = .ok default) := by
  refine ⟨_, _, MatT.ctorSized_eq indet r c h, rfl, rfl, ?_, ?_⟩
  · exact Heap.block_append_new h _
  · intro hsize row col hrow hcol
    have hoff := MatT.offset_eq
      ({ m_rows := r, m_cols := c, m_data := some h.length } : MatT T) row col hsize hrow hcol
    apply MatT.get_of_block _ rfl (Heap.block_append_new h _) row col hrow hcol
    rw [hoff.1, List.getElem?_replicate, if_pos]
    unfold sizeMul
    rw [Nat.mod_eq_of_lt hsize]
    exact hoff.2

/-- Witness of `MatT.ctorSized_default`: `MatT(2, 3)` has six default elements
and reads the default at `(0, 0)` and `(1, 2)`; `MatT(0, 0)` has none. -/
theorem MatT.ctorSized_default_witness :
    (∃ m h1, MatT.ctorSized (T := Int) ⟨true, fun _ => 7⟩ 2 3 [] = (.ok m, h1) ∧
      m.rows = 2 ∧ m.cols = 3 ∧ m.elems h1 = some [0, 0, 0, 0, 0, 0] ∧
      m.get 0 0 h1 = .ok 0 ∧ m.get 1 2 h1 = .ok 0) ∧
    (∃ m h1, MatT.ctorSized (T := Int) ⟨true, fun _ => 7⟩ 0 0 [] = (.ok m, h1) ∧
      m.rows = 0 ∧ m.cols = 0 ∧ m.elems h1 = some []) := by
  obtain ⟨m, h1, he, hr, hc, hel, hget⟩ :=
    MatT.ctorSized_default (T := Int) (fun _ => 7) 2 3 []
  obtain ⟨m0, h0, he0, hr0, hc0, hel0, _⟩ :=
    MatT.ctorSized_default (T := Int) (fun _ => 7) 0 0 []
  exact ⟨⟨m, h1, he, hr, hc, hel, hget (by decide) 0 0 (by decide) (by decide),
    hget (by decide) 1 2 (by decide) (by decide)⟩, ⟨m0, h0, he0, hr0, hc0, hel0⟩⟩

/-- C3: for every `r`, `c` and `v`, `MatT(r, c, v)` reports `rows() == r` and
`cols() == c`, and its array holds `r * c` elements (the `size_t` product),
every one equal to `v`, whatever the fresh storage held; when `r * c` fits
`size_t`, every position `row < r`, `col < c` reads `v`. -/
theorem MatT.ctorFill_all {T : Type} (indet : Nat → T) (r c : Nat) (v : T) (h : Heap T) :
    ∃ m h1, MatT.ctorFill ⟨true, indet⟩ r c v h = (.ok m, h1) ∧
      m.rows = r ∧ m.cols = c ∧
      m.elems h1 = some (List.replicate (sizeMul r c) v) ∧
      (r * c < 2 ^ 64 → ∀ row col, row < r → col < c → m.get row col h1 = .ok v) := by
  refine ⟨_, _, MatT.ctorFill_eq indet r c v h, rfl, rfl, ?_, ?_⟩
  · exact Heap.block_append_new h _
  · intro hsize row col hrow hcol
    have hoff := MatT.offset_eq
      ({ m_rows := r, m_cols := c, m_data := some h.length } : MatT T) row col hsize hrow hcol
    apply MatT.get_of_block _ rfl (Heap.block_append_new h _) row col hrow hcol
    rw [hoff.1, List.getElem?_replicate, if_pos]
    unfold sizeMul
    rw [Nat.mod_eq_of_lt hsize]
    exact hoff.2

/-- Witness of `MatT.ctorFill_all`: `MatT(2, 2, 5)` holds four 5s. -/
theorem MatT.ctorFill_all_witness :
    ∃ m h1, MatT.ctorFill (T := Int) ⟨true, fun i => i⟩ 2 2 5 [] = (.ok m, h1) ∧
      m.rows = 2 ∧ m.cols = 2 ∧ m.elems h1 = some [5, 5, 5, 5] ∧
      m.get 1 1 h1 = .ok 5 := by
  obtain ⟨m, h1, he, hr, hc, hel, hget⟩ :=
    MatT.ctorFill_all (T := Int) (fun i => i) 2 2 5 []
  exact ⟨m, h1, he, hr, hc, hel, hget (by decide) 1 1 (by decide) (by decide)⟩


section FrameLemmas

variable {T : Type}

theorem Heap.SameExcept.refl (ptr : Option Nat) (h : Heap T) : Heap.SameExcept ptr h h :=
  ⟨rfl, fun _ => rfl, fun _ _ => rfl⟩

theorem Heap.SameExcept.trans {ptr : Option Nat} {h h1 h2 : Heap T}
    (h01 : Heap.SameExcept ptr h h1) (h12 : Heap.SameExcept ptr h1 h2) :
    Heap.SameExcept ptr h h2 :=
  ⟨h12.1.trans h01.1, fun q => (h12.2.1 q).trans (h01.2.1 q),
    fun q hq => (h12.2.2 q hq).trans (h01.2.2 q hq)⟩

theorem Heap.store_sameExcept {h h1 : Heap T} {ptr : Option Nat} {i : Nat} {v : T}
    (hs : h.store ptr i v = some h1) : Heap.SameExcept ptr h h1 := by
  unfold Heap.store at hs
  cases ptr with
  | none => simp at hs
  | some p =>
    simp only [] at hs
    cases hb : h.block p with
    | none => simp [hb] at hs
    | some cells =>
      simp only [hb] at hs
      split at hs
      · injection hs with hs
        subst hs
        have hlt := Heap.block_lt hb
        refine ⟨List.length_set _ _ _, ?_, ?_⟩
        · intro q
          by_cases hq : p = q
          · subst hq
            rw [Heap.block_set_self h _ hlt, hb]
            simp
          · rw [Heap.block_set_ne h _ hq]
        · intro q hq
          have hne : p ≠ q := fun e => hq (by rw [e])
          exact Heap.block_set_ne h _ hne
      · simp at hs

theorem storeAt_sameExcept (ptr : Option Nat) (i : Nat) (v : T) (h : Heap T) :
    Heap.SameExcept ptr h (storeAt ptr i v h).2 := by
  unfold storeAt
  cases hs : h.store ptr i v with
  | none => exact Heap.SameExcept.refl _ _
  | some h1 => exact Heap.store_sameExcept hs

theorem copyAt_sameExcept (dst src : Option Nat) (i : Nat) (h : Heap T) :
    Heap.SameExcept dst h (copyAt dst src i h).2 := by
  unfold copyAt
  cases h.load src i with
  | none => exact Heap.SameExcept.refl _ _
  | some v => exact storeAt_sameExcept _ _ _ _

theorem castAt_sameExcept {OT : Type} (cast : OT → T) (dst : Option Nat) (data : List OT)
    (i : Nat) (h : Heap T) : Heap.SameExcept dst h (castAt cast dst data i h).2 := by
  unfold castAt
  cases data[i]? with
  | none => exact Heap.SameExcept.refl _ _
  | some v => exact storeAt_sameExcept _ _ _ _

theorem combineAt_sameExcept (op : T → T → T) (dst src : Option Nat) (i : Nat) (h : Heap T) :
    Heap.SameExcept dst h (combineAt op dst src i h).2 := by
  unfold combineAt
  cases h.load src i with
  | none => exact Heap.SameExcept.refl _ _
  | some r =>
    cases h.load dst i with
    | none => exact Heap.SameExcept.refl _ _
    | some l => exact storeAt_sameExcept _ _ _ _

theorem updateAt_sameExcept (op : T → T) (dst : Option Nat) (i : Nat) (h : Heap T) :
    Heap.SameExcept dst h (updateAt op dst i h).2 := by
  unfold updateAt
  cases h.load dst i with
  | none => exact Heap.SameExcept.refl _ _
  | some l => exact storeAt_sameExcept _ _ _ _

/-- A loop whose iterations write only through `ptr` writes only through `ptr`,
whether or not it runs to completion. -/
theorem forLoop_sameExcept (ptr : Option Nat) (body : Nat → Heap T → Outcome T Unit)
    (hbody : ∀ i h, Heap.SameExcept ptr h (body i h).2) (n : Nat) (h : Heap T) :
    Heap.SameExcept ptr h (forLoop body n h).2 := by
  induction n with
  | zero => exact Heap.SameExcept.refl _ _
  | succ n ih =>
    rw [forLoop]
    cases hr : forLoop body n h with
    | mk r h1 =>
      rw [hr] at ih
      cases r with
      | error e => exact ih
      | ok u => exact ih.trans (hbody n h1)

theorem MatT.fill_sameExcept (self : MatT T) (value : T) (h : Heap T) :
    Heap.SameExcept self.m_data h (self.fill value h).2 :=
  forLoop_sameExcept _ _ (fun i h => storeAt_sameExcept _ i value h) _ _

theorem MatT.addAssign_sameExcept [Add T] (self rhs : MatT T) (h : Heap T) :
    Heap.SameExcept self.m_data h (self.addAssign rhs h).2 := by
  unfold MatT.addAssign
  split
  · exact forLoop_sameExcept _ _ (fun i h => combineAt_sameExcept _ _ _ i h) _ _
  · exact Heap.SameExcept.refl _ _

theorem MatT.subAssign_sameExcept [Sub T] (self rhs : MatT T) (h : Heap T) :
    Heap.SameExcept self.m_data h (self.subAssign rhs h).2 := by
  unfold MatT.subAssign
  split
  · exact forLoop_sameExcept _ _ (fun i h => combineAt_sameExcept _ _ _ i h) _ _
  · exact Heap.SameExcept.refl _ _

theorem MatT.mulAssign_sameExcept [Mul T] (self : MatT T) (scalar : T) (h : Heap T) :
    Heap.SameExcept self.m_data h (self.mulAssign scalar h).2 :=
  forLoop_sameExcept _ _ (fun i h => updateAt_sameExcept _ _ i h) _ _

theorem MatT.put_sameExcept (self : MatT T) (row col : Nat) (v : T) (h : Heap T) :
    Heap.SameExcept self.m_data h (self.put row col v h).2 := by
  unfold MatT.put
  split
  · exact storeAt_sameExcept _ _ _ _
  · exact Heap.SameExcept.refl _ _

theorem MatT.Mutation.apply_sameExcept [Add T] [Sub T] [Mul T] (mu : MatT.Mutation T)
    (self : MatT T) (h : Heap T) : Heap.SameExcept self.m_data h (mu.apply self h).2 := by
  cases mu with
  | fill value => exact MatT.fill_sameExcept self value h
  | addAssign rhs => exact MatT.addAssign_sameExcept self rhs h
  | subAssign rhs => exact MatT.subAssign_sameExcept self rhs h
  | mulAssign scalar => exact MatT.mulAssign_sameExcept self scalar h
  | put row col v => exact MatT.put_sameExcept self row col v h

theorem MatT.Mutation.applyAll_sameExcept [Add T] [Sub T] [Mul T]
    (mus : List (MatT.Mutation T)) (self : MatT T) (h : Heap T) :
    Heap.SameExcept self.m_data h (MatT.Mutation.applyAll mus self h).2 := by
  induction mus generalizing h with
  | nil => exact Heap.SameExcept.refl _ _
  | cons mu rest ih =>
    rw [MatT.Mutation.applyAll]
    have h1 := MatT.Mutation.apply_sameExcept mu self h
    cases hr : mu.apply self h with
    | mk r hh =>
      rw [hr] at h1
      cases r with
      | error e => exact h1
      | ok u => exact h1.trans (ih hh)

end FrameLemmas

section CopyLemmas

variable {T : Type}

theorem MatT.valid_iff (m : MatT T) (h : Heap T) :
    m.Valid h ↔ ∃ cells, m.elems h = some cells ∧ cells.length = sizeMul m.m_rows m.m_cols := by
  unfold MatT.Valid
  cases m.elems h <;> simp

/-- The elements of a matrix are not affected by writes through another pointer. -/
theorem MatT.elems_sameExcept (m : MatT T) {ptr : Option Nat} {h h1 : Heap T}
    (hs : Heap.SameExcept ptr h h1) (hne : ∀ p, m.m_data = some p → ptr ≠ some p) :
    m.elems h1 = m.elems h := by
  unfold MatT.elems
  cases hd : m.m_data with
  | none => rfl
  | some p => exact hs.2.2 p (hne p hd)

/-- Validity is not affected by writes into arrays. -/
theorem MatT.valid_sameExcept (m : MatT T) {ptr : Option Nat} {h h1 : Heap T}
    (hs : Heap.SameExcept ptr h h1) (hm : m.Valid h) : m.Valid h1 := by
  unfold MatT.Valid MatT.elems at *
  cases hd : m.m_data with
  | none => rw [hd] at hm; exact hm
  | some p =>
    rw [hd] at hm
    simp only [] at hm ⊢
    rw [hs.2.1 p]
    exact hm

/-- The elements of a matrix with a live array are not affected by an allocation. -/
theorem MatT.elems_append (m : MatT T) (h l : Heap T) {cells : List T}
    (hm : m.elems h = some cells) : m.elems (h ++ l) = some cells := by
  unfold MatT.elems at *
  cases hd : m.m_data with
  | none => rw [hd] at hm; exact hm
  | some p =>
    rw [hd] at hm
    simp only [] at hm ⊢
    rw [Heap.block_append_left h l (Heap.block_lt hm)]
    exact hm

/-- The array of a valid matrix is not the next one to be allocated. -/
theorem MatT.data_ne_fresh (m : MatT T) (h : Heap T) (hm : m.Valid h) :
    m.m_data ≠ some h.length := by
  intro hd
  obtain ⟨cells, hc, _⟩ := (MatT.valid_iff m h).1 hm
  unfold MatT.elems at hc
  rw [hd] at hc
  exact Nat.lt_irrefl _ (Heap.block_lt hc)

/-- The copy constructor on a valid source: a fresh array with the source's elements. -/
theorem MatT.ctorCopy_eq (indet : Nat → T) (other : MatT T) (h : Heap T) {cells : List T}
    (hc : other.elems h = some cells) (hlen : cells.length = sizeMul other.m_rows other.m_cols) :
    MatT.ctorCopy ⟨true, indet⟩ other h =
      (.ok { m_rows := other.m_rows, m_cols := other.m_cols, m_data := some h.length },
        h ++ [some cells]) := by
  have hb := Heap.block_append_new h ((List.range (sizeMul other.m_rows other.m_cols)).map indet)
  have hl : ((List.range (sizeMul other.m_rows other.m_cols)).map indet).length =
      sizeMul other.m_rows other.m_cols := by simp
  unfold MatT.ctorCopy MatT.rows MatT.cols MatT.data
  rw [newArray_succeeds]
  simp only []
  unfold MatT.elems at hc
  cases hd : other.m_data with
  | none =>
    rw [hd] at hc
    injection hc with hc
    subst hc
    rw [← hlen]
    simp [forLoop]
  | some q =>
    rw [hd] at hc
    simp only [] at hc
    have hq := Heap.block_append_left h
      [some ((List.range (sizeMul other.m_rows other.m_cols)).map indet)] (Heap.block_lt hc)
    rw [hc] at hq
    have hloop := forLoop_copyAt hb hq (by rw [hl]; exact hlen)
    rw [hl, Heap.set_append_new] at hloop
    rw [hloop]

end CopyLemmas

/-- C6: the copy constructor on a valid matrix `m` yields `c` with the same
`rows()`, `cols()` and elements, in an array of its own; no sequence of
`fill`, `+=`, `-=`, `*=` and element writes applied to `c` (completed or
stopped by a fault) changes an element of `m`, and none applied to `m`
changes an element of `c`.  These operations write no data member, so the
fields of both objects stay as they are. -/
theorem MatT.ctorCopy_independent {T : Type} [Add T] [Sub T] [Mul T] (indet : Nat → T)
    (m : MatT T) (h : Heap T) (hm : m.Valid h) :
    ∃ c h1, MatT.ctorCopy ⟨true, indet⟩ m h = (.ok c, h1) ∧
      c.rows = m.rows ∧ c.cols = m.cols ∧
      c.elems h1 = m.elems h ∧ m.elems h1 = m.elems h ∧ c.m_data ≠ m.m_data ∧
      (∀ mus : List (MatT.Mutation T),
        m.elems (MatT.Mutation.applyAll mus c h1).2 = m.elems h) ∧
      (∀ mus : List (MatT.Mutation T),
        c.elems (MatT.Mutation.applyAll mus m h1).2 = c.elems h1) := by
  obtain ⟨cells, hc, hlen⟩ := (MatT.valid_iff m h).1 hm
  have hfresh := MatT.data_ne_fresh m h hm
  have hm1 : m.elems (h ++ [some cells]) = m.elems h := by
    rw [MatT.elems_append m h _ hc, hc]
  refine ⟨_, _, MatT.ctorCopy_eq indet m h hc hlen, rfl, rfl, ?_, hm1, ?_, ?_, ?_⟩
  · rw [hc]
    exact Heap.block_append_new h cells
  · exact fun e => hfresh e.symm
  · intro mus
    rw [← hm1]
    apply MatT.elems_sameExcept m (MatT.Mutation.applyAll_sameExcept mus _ _)
    intro p hp e
    apply hfresh
    rw [hp]
    exact e.symm
  · intro mus
    apply MatT.elems_sameExcept _ (MatT.Mutation.applyAll_sameExcept mus m _)
    intro p hp e
    apply hfresh
    rw [e]
    exact hp.symm

/-- Witness of `MatT.ctorCopy_independent`: a 2x1 matrix over `[1, 2]` is
copied; filling the copy with 9 leaves the original `[1, 2]`, and scaling the
original by 3 leaves the copy `[1, 2]`. -/
theorem MatT.ctorCopy_independent_witness :
    MatT.Valid ({ m_rows := 2, m_cols := 1, m_data := some 0 } : MatT Int) [some [1, 2]] ∧
    ∃ c h1, MatT.ctorCopy ⟨true, fun _ => 0⟩
        ({ m_rows := 2, m_cols := 1, m_data := some 0 } : MatT Int) [some [1, 2]] = (.ok c, h1) ∧
      c.rows = 2 ∧ c.cols = 1 ∧ c.elems h1 = some [1, 2] ∧
      c.elems (MatT.Mutation.applyAll [.fill 9] c h1).2 = some [9, 9] ∧
      MatT.elems ({ m_rows := 2, m_cols := 1, m_data := some 0 } : MatT Int)
        (MatT.Mutation.applyAll [.fill 9] c h1).2 = some [1, 2] ∧
      MatT.elems ({ m_rows := 2, m_cols := 1, m_data := some 0 } : MatT Int)
        (MatT.Mutation.applyAll [.mulAssign 3]
          ({ m_rows := 2, m_cols := 1, m_data := some 0 } : MatT Int) h1).2 = some [3, 6] ∧
      c.elems (MatT.Mutation.applyAll [.mulAssign 3]
          ({ m_rows := 2, m_cols := 1, m_data := some 0 } : MatT Int) h1).2 = some [1, 2] := by
  refine ⟨by decide, ?_⟩
  obtain ⟨c, h1, he, hr, hc, hel, _, _, hmc, hcm⟩ :=
    MatT.ctorCopy_independent (fun _ => 0)
      ({ m_rows := 2, m_cols := 1, m_data := some 0 } : MatT Int) [some [1, 2]] (by decide)
  have hev : MatT.ctorCopy ⟨true, fun _ => 0⟩
      ({ m_rows := 2, m_cols := 1, m_data := some 0 } : MatT Int) [some [1, 2]] =
      (.ok { m_rows := 2, m_cols := 1, m_data := some 1 }, [some [1, 2], some [1, 2]]) := by
    decide
  rw [hev] at he
  injection he with hc1 hh1
  injection hc1 with hc1
  subst hc1
  subst hh1
  exact ⟨_, _, hev, rfl, rfl, by decide, by decide, hmc [.fill 9], by decide,
    hcm [.mulAssign 3]⟩

section AssignLemmas

variable {T : Type}

theorem Heap.block_release_ne (h : Heap T) (ptr : Option Nat) {q : Nat} (hq : ptr ≠ some q) :
    Heap.block (h.release ptr) q = h.block q := by
  unfold Heap.release
  cases ptr with
  | none => rfl
  | some p => exact Heap.block_set_ne h none (fun e => hq (by rw [e]))

theorem MatT.swap_eq (self other : MatT T) :
    MatT.swap self other =
      ({ m_rows := other.m_rows, m_cols := other.m_cols, m_data := other.m_data },
        { m_rows := self.m_rows, m_cols := self.m_cols, m_data := self.m_data }) := rfl

theorem MatT.Distinct.ne {a b : MatT T} (hd : a.Distinct b) {q : Nat} (hq : b.m_data = some q) :
    a.m_data ≠ some q := by
  intro ha
  cases hd with
  | inl hne => exact hne (ha.trans hq.symm)
  | inr hn => rw [hn] at ha; simp at ha

/-- Assignment on valid operands, in full: the target takes the source's
dimensions and a fresh array with the source's elements; its old array is deleted. -/
theorem MatT.assign_eq (indet : Nat → T) (self other : MatT T) (h : Heap T) {cells : List T}
    (hc : other.elems h = some cells) (hlen : cells.length = sizeMul other.m_rows other.m_cols) :
    MatT.assign ⟨true, indet⟩ self other h =
      (.ok { m_rows := other.m_rows, m_cols := other.m_cols, m_data := some h.length },
        Heap.release (h ++ [some cells]) self.m_data) := by
  unfold MatT.assign
  rw [MatT.ctorCopy_eq indet other h hc hlen]
  rfl

theorem MatT.assignConv_eq (nw : NewArray T) (self other : MatT T) (h : Heap T) :
    MatT.assignConv nw self other h = MatT.assign nw self other h := rfl

end AssignLemmas

/-- C7: for valid `a` (of any shape) and `b`, `a = b` succeeds and leaves `a`
valid with the `rows()`, `cols()` and elements of `b`; when `b` is another
object its elements are unchanged (its fields are not written).  With `b`
taken to be `a` itself this is self-assignment: `a` keeps its dimensions and
elements. -/
theorem MatT.assign_spec {T : Type} (indet : Nat → T) (a b : MatT T) (h : Heap T)
    (ha : a.Valid h) (hb : b.Valid h) :
    ∃ a1 h1, MatT.assign ⟨true, indet⟩ a b h = (.ok a1, h1) ∧
      a1.rows = b.rows ∧ a1.cols = b.cols ∧ a1.elems h1 = b.elems h ∧ a1.Valid h1 ∧
      (a.Distinct b → b.elems h1 = b.elems h) := by
  obtain ⟨cells, hc, hlen⟩ := (MatT.valid_iff b h).1 hb
  have hfresh := MatT.data_ne_fresh a h ha
  have hnew : Heap.block (Heap.release (h ++ [some cells]) a.m_data) h.length = some cells := by
    rw [Heap.block_release_ne _ _ hfresh]
    exact Heap.block_append_new h cells
  refine ⟨_, _, MatT.assign_eq indet a b h hc hlen, rfl, rfl, ?_, ?_, ?_⟩
  · rw [hc]
    exact hnew
  · rw [MatT.valid_iff]
    exact ⟨cells, hnew, hlen⟩
  · intro hd
    have hb1 := MatT.elems_append b h [some cells] hc
    rw [hc]
    unfold MatT.elems at hb1 ⊢
    cases hq : b.m_data with
    | none =>
      rw [hq] at hb1
      exact hb1
    | some q =>
      rw [hq] at hb1
      simp only [] at hb1 ⊢
      rw [Heap.block_release_ne _ _ (hd.ne hq)]
      exact hb1

/-- Witness of `MatT.assign_spec`: a 1x1 matrix `[7]` is assigned the 2x1
matrix `[1, 2]`; and a 2x1 matrix `[1, 2]` assigned to itself stays `[1, 2]`. -/
theorem MatT.assign_spec_witness :
    (MatT.Valid ({ m_rows := 1, m_cols := 1, m_data := some 0 } : MatT Int)
        [some [7], some [1, 2]] ∧
      MatT.Valid ({ m_rows := 2, m_cols := 1, m_data := some 1 } : MatT Int)
        [some [7], some [1, 2]]) ∧
    (∃ a1 h1, MatT.assign ⟨true, fun _ => 0⟩
        ({ m_rows := 1, m_cols := 1, m_data := some 0 } : MatT Int)
        { m_rows := 2, m_cols := 1, m_data := some 1 } [some [7], some [1, 2]] = (.ok a1, h1) ∧
      a1.rows = 2 ∧ a1.cols = 1 ∧ a1.elems h1 = some [1, 2] ∧ a1.Valid h1 ∧
      MatT.elems ({ m_rows := 2, m_cols := 1, m_data := some 1 } : MatT Int) h1 =
        some [1, 2]) ∧
    (∃ a1 h1, MatT.assign ⟨true, fun _ => 0⟩
        ({ m_rows := 2, m_cols := 1, m_data := some 1 } : MatT Int)
        { m_rows := 2, m_cols := 1, m_data := some 1 } [some [7], some [1, 2]] = (.ok a1, h1) ∧
      a1.rows = 2 ∧ a1.cols = 1 ∧ a1.elems h1 = some [1, 2]) := by
  refine ⟨by decide, ?_, ?_⟩
  · obtain ⟨a1, h1, he, hr, hc, hel, hv, hb⟩ :=
      MatT.assign_spec (fun _ => 0) ({ m_rows := 1, m_cols := 1, m_data := some 0 } : MatT Int)
        { m_rows := 2, m_cols := 1, m_data := some 1 } [some [7], some [1, 2]]
        (by decide) (by decide)
    exact ⟨a1, h1, he, hr, hc, hel, hv, hb (by decide)⟩
  · obtain ⟨a1, h1, he, hr, hc, hel, _, _⟩ :=
      MatT.assign_spec (fun _ => 0) ({ m_rows := 2, m_cols := 1, m_data := some 1 } : MatT Int)
        { m_rows := 2, m_cols := 1, m_data := some 1 } [some [7], some [1, 2]]
        (by decide) (by decide)
    exact ⟨a1, h1, he, hr, hc, hel⟩

section ArithmeticLemmas

variable {T : Type}

/-- The loop shared by `+=` and `-=` on valid operands of equal dimensions:
it completes, leaves in the array of `a` the elementwise combination, and
does not touch the array of a different object `b`. -/
theorem MatT.combine_loop (op : T → T → T) (a b : MatT T) (h : Heap T) {as bs : List T}
    (has : a.elems h = some as) (hbs : b.elems h = some bs)
    (hla : as.length = sizeMul a.m_rows a.m_cols) (hlb : bs.length = as.length) :
    ∃ h1, forLoop (combineAt op a.m_data b.m_data) (sizeMul a.m_rows a.m_cols) h = (.ok (), h1) ∧
      a.elems h1 = some (List.zipWith op as bs) ∧ (a.Distinct b → b.elems h1 = some bs) := by
  unfold MatT.elems at has hbs
  cases hpa : a.m_data with
  | none =>
    rw [hpa] at has
    injection has with has
    subst has
    refine ⟨h, ?_, ?_, ?_⟩
    · rw [← hla]; rfl
    · simp [MatT.elems, hpa]
    · intro _
      unfold MatT.elems
      exact hbs
  | some p =>
    rw [hpa] at has
    simp only [] at has
    cases hpb : b.m_data with
    | none =>
      rw [hpb] at hbs
      injection hbs with hbs
      subst hbs
      have hnil : as = [] := List.eq_nil_of_length_eq_zero hlb.symm
      subst hnil
      refine ⟨h, ?_, ?_, ?_⟩
      · rw [← hla]; rfl
      · simp [MatT.elems, hpa, has]
      · intro _
        simp [MatT.elems, hpb]
    | some q =>
      rw [hpb] at hbs
      simp only [] at hbs
      have hloop := forLoop_combineAt op has hbs hlb
      rw [hla] at hloop
      refine ⟨_, hloop, ?_, ?_⟩
      · simp only [MatT.elems, hpa]
        exact Heap.block_set_self h _ (Heap.block_lt has)
      · intro hd
        simp only [MatT.elems, hpb]
        rw [Heap.block_set_ne h _ (fun e => hd.ne hpb (by rw [hpa, e]))]
        exact hbs

end ArithmeticLemmas

/-- C8 (as amended): for valid `a` and `b` with identical dimensions, `b`
possibly `a` itself, `a += b` completes and sets each element of `a` to the
old element plus the old element of `b` at the same linear index, and
`a -= b` likewise with minus; neither writes a data member, so `rows()` and
`cols()` of `a` stay; when `b` is a different object from `a`, its elements
are unchanged. -/
theorem MatT.addAssign_subAssign_spec {T : Type} [Add T] [Sub T] (a b : MatT T) (h : Heap T)
    (ha : a.Valid h) (hb : b.Valid h) (hrows : a.rows = b.rows) (hcols : a.cols = b.cols) :
    ∃ as bs, a.elems h = some as ∧ b.elems h = some bs ∧ as.length = bs.length ∧
      (∃ h1, a.addAssign b h = (.ok (), h1) ∧
        a.elems h1 = some (List.zipWith (fun l r => l + r) as bs) ∧
        (a.Distinct b → b.elems h1 = some bs)) ∧
      (∃ h1, a.subAssign b h = (.ok (), h1) ∧
        a.elems h1 = some (List.zipWith (fun l r => l - r) as bs) ∧
        (a.Distinct b → b.elems h1 = some bs)) := by
  obtain ⟨as, has, hla⟩ := (MatT.valid_iff a h).1 ha
  obtain ⟨bs, hbs, hlb⟩ := (MatT.valid_iff b h).1 hb
  unfold MatT.rows at hrows
  unfold MatT.cols at hcols
  have hlen : bs.length = as.length := by rw [hla, hlb, hrows, hcols]
  refine ⟨as, bs, has, hbs, hlen.symm, ?_, ?_⟩
  · unfold MatT.addAssign
    rw [if_pos ⟨hrows, hcols⟩]
    exact MatT.combine_loop _ a b h has hbs hla hlen
  · unfold MatT.subAssign
    rw [if_pos ⟨hrows, hcols⟩]
    exact MatT.combine_loop _ a b h has hbs hla hlen

/-- Witness of `MatT.addAssign_subAssign_spec`: a 2x2 matrix of 5s and a 2x2
matrix of 1s; `+=` gives four 6s, `-=` gives four 4s, the 1s stay. -/
theorem MatT.addAssign_subAssign_spec_witness :
    (MatT.Valid ({ m_rows := 2, m_cols := 2, m_data := some 0 } : MatT Int)
        [some [5, 5, 5, 5], some [1, 1, 1, 1]] ∧
      MatT.Valid ({ m_rows := 2, m_cols := 2, m_data := some 1 } : MatT Int)
        [some [5, 5, 5, 5], some [1, 1, 1, 1]]) ∧
    (∃ h1, MatT.addAssign ({ m_rows := 2, m_cols := 2, m_data := some 0 } : MatT Int)
        { m_rows := 2, m_cols := 2, m_data := some 1 }
        [some [5, 5, 5, 5], some [1, 1, 1, 1]] = (.ok (), h1) ∧
      MatT.elems ({ m_rows := 2, m_cols := 2, m_data := some 0 } : MatT Int) h1 =
        some [6, 6, 6, 6] ∧
      MatT.elems ({ m_rows := 2, m_cols := 2, m_data := some 1 } : MatT Int) h1 =
        some [1, 1, 1, 1]) ∧
    (∃ h1, MatT.subAssign ({ m_rows := 2, m_cols := 2, m_data := some 0 } : MatT Int)
        { m_rows := 2, m_cols := 2, m_data := some 1 }
        [some [5, 5, 5, 5], some [1, 1, 1, 1]] = (.ok (), h1) ∧
      MatT.elems ({ m_rows := 2, m_cols := 2, m_data := some 0 } : MatT Int) h1 =
        some [4, 4, 4, 4] ∧
      MatT.elems ({ m_rows := 2, m_cols := 2, m_data := some 1 } : MatT Int) h1 =
        some [1, 1, 1, 1]) := by
  refine ⟨by decide, ?_⟩
  obtain ⟨as, bs, has, hbs, _, ⟨h1, he1, ha1, hb1⟩, ⟨h2, he2, ha2, hb2⟩⟩ :=
    MatT.addAssign_subAssign_spec ({ m_rows := 2, m_cols := 2, m_data := some 0 } : MatT Int)
      { m_rows := 2, m_cols := 2, m_data := some 1 } [some [5, 5, 5, 5], some [1, 1, 1, 1]]
      (by decide) (by decide) rfl rfl
  have eas : as = [5, 5, 5, 5] := by
    have : some [(5 : Int), 5, 5, 5] = some as := has
    injection this with this
    exact this.symm
  have ebs : bs = [1, 1, 1, 1] := by
    have : some [(1 : Int), 1, 1, 1] = some bs := hbs
    injection this with this
    exact this.symm
  subst eas
  subst ebs
  exact ⟨⟨h1, he1, ha1, hb1 (by decide)⟩, ⟨h2, he2, ha2, hb2 (by decide)⟩⟩

/-- C8, counterexample: when `b` is `a` itself (a pair of identical
dimensions), `a += a` sets each element to the old element plus the old
element of `b`, and thereby changes `b`: the 2x1 matrix `[1, 2]` becomes
`[2, 4]`; likewise `a -= a` leaves `[0, 0]`. -/
theorem MatT.addAssign_same_object_counterexample :
    MatT.Valid ({ m_rows := 2, m_cols := 1, m_data := some 0 } : MatT Int) [some [1, 2]] ∧
    MatT.elems ({ m_rows := 2, m_cols := 1, m_data := some 0 } : MatT Int) [some [1, 2]] =
      some [1, 2] ∧
    MatT.addAssign ({ m_rows := 2, m_cols := 1, m_data := some 0 } : MatT Int)
        { m_rows := 2, m_cols := 1, m_data := some 0 } [some [1, 2]] =
      (.ok (), [some [2, 4]]) ∧
    MatT.elems ({ m_rows := 2, m_cols := 1, m_data := some 0 } : MatT Int) [some [2, 4]] ≠
      some [1, 2] ∧
    MatT.subAssign ({ m_rows := 2, m_cols := 1, m_data := some 0 } : MatT Int)
        { m_rows := 2, m_cols := 1, m_data := some 0 } [some [1, 2]] =
      (.ok (), [some [0, 0]]) ∧
    MatT.elems ({ m_rows := 2, m_cols := 1, m_data := some 0 } : MatT Int) [some [0, 0]] ≠
      some [1, 2] := by
  decide

section ScalarLemmas

variable {T : Type}

/-- The member `*=` on a matrix whose array is known. -/
theorem MatT.mulAssign_eq [Mul T] (a : MatT T) (scalar : T) (h : Heap T) {p : Nat}
    {cells : List T} (hd : a.m_data = some p) (hp : h.block p = some cells)
    (hlen : cells.length = sizeMul a.m_rows a.m_cols) :
    a.mulAssign scalar h = (.ok (), h.set p (some (cells.map (fun l => l * scalar)))) := by
  unfold MatT.mulAssign
  rw [hd, ← hlen]
  exact forLoop_updateAt _ hp

/-- Both free `operator*` on a valid matrix, in full. -/
theorem MatT.mulScalar_eq {D : Type} [Mul T] (conv : D → T) (indet : Nat → T) (mat : MatT T)
    (scalar : D) (h : Heap T) {cells : List T} (hc : mat.elems h = some cells)
    (hlen : cells.length = sizeMul mat.m_rows mat.m_cols) :
    MatT.mulScalar conv ⟨true, indet⟩ mat scalar h =
      (.ok { m_rows := mat.m_rows, m_cols := mat.m_cols, m_data := some h.length },
        h ++ [some (cells.map (fun l => l * conv scalar))]) := by
  unfold MatT.mulScalar
  rw [MatT.ctorCopy_eq indet mat h hc hlen]
  simp only []
  rw [MatT.mulAssign_eq
      ({ m_rows := mat.m_rows, m_cols := mat.m_cols, m_data := some h.length } : MatT T)
      (conv scalar) _ rfl (Heap.block_append_new h cells) hlen,
    Heap.set_append_new]

theorem MatT.scalarMul_eq {D : Type} [Mul T] (conv : D → T) (indet : Nat → T) (mat : MatT T)
    (scalar : D) (h : Heap T) {cells : List T} (hc : mat.elems h = some cells)
    (hlen : cells.length = sizeMul mat.m_rows mat.m_cols) :
    MatT.scalarMul conv ⟨true, indet⟩ scalar mat h =
      (.ok { m_rows := mat.m_rows, m_cols := mat.m_cols, m_data := some h.length },
        h ++ [some (cells.map (fun l => l * conv scalar))]) := by
  unfold MatT.scalarMul
  rw [MatT.ctorCopy_eq indet mat h hc hlen]
  simp only []
  rw [MatT.mulAssign_eq
      ({ m_rows := mat.m_rows, m_cols := mat.m_cols, m_data := some h.length } : MatT T)
      (conv scalar) _ rfl (Heap.block_append_new h cells) hlen,
    Heap.set_append_new]

end ScalarLemmas

/-- C9 (as amended): for every valid matrix `m` and scalar `s`, `m * s` and
`s * m` each build a new matrix with the dimensions of `m` whose every element
is the corresponding element of `m` multiplied, in `T`, by `s` converted to
`T`; the elements of `m` are unchanged. -/
theorem MatT.mulScalar_spec {T D : Type} [Mul T] (conv : D → T) (indet : Nat → T)
    (m : MatT T) (s : D) (h : Heap T) (hm : m.Valid h) :
    ∃ cells res h1, m.elems h = some cells ∧
      MatT.mulScalar conv ⟨true, indet⟩ m s h = (.ok res, h1) ∧
      MatT.scalarMul conv ⟨true, indet⟩ s m h = (.ok res, h1) ∧
      res.rows = m.rows ∧ res.cols = m.cols ∧
      res.elems h1 = some (cells.map (fun l => l * conv s)) ∧
      m.elems h1 = some cells := by
  obtain ⟨cells, hc, hlen⟩ := (MatT.valid_iff m h).1 hm
  exact ⟨cells, _, _, hc, MatT.mulScalar_eq conv indet m s h hc hlen,
    MatT.scalarMul_eq conv indet m s h hc hlen, rfl, rfl, Heap.block_append_new h _,
    MatT.elems_append m h _ hc⟩

/-- Witness of `MatT.mulScalar_spec`: the 2x2 integer matrix with column-major
elements `1, 2, 3, 4` times `3.0` is `3, 6, 9, 12`. -/
theorem MatT.mulScalar_spec_witness :
    MatT.Valid ({ m_rows := 2, m_cols := 2, m_data := some 0 } : MatT Int)
      [some [1, 2, 3, 4]] ∧
    ∃ res h1, MatT.mulScalar doubleToInt ⟨true, fun _ => 0⟩
        ({ m_rows := 2, m_cols := 2, m_data := some 0 } : MatT Int) 3 [some [1, 2, 3, 4]] =
        (.ok res, h1) ∧
      MatT.scalarMul doubleToInt ⟨true, fun _ => 0⟩ 3
        ({ m_rows := 2, m_cols := 2, m_data := some 0 } : MatT Int) [some [1, 2, 3, 4]] =
        (.ok res, h1) ∧
      res.rows = 2 ∧ res.cols = 2 ∧
      res.elems h1 = some [3, 6, 9, 12] ∧
      MatT.elems ({ m_rows := 2, m_cols := 2, m_data := some 0 } : MatT Int) h1 =
        some [1, 2, 3, 4] := by
  refine ⟨by decide, ?_⟩
  obtain ⟨cells, res, h1, hc, he1, he2, hr, hcl, hel, hm⟩ :=
    MatT.mulScalar_spec doubleToInt (fun _ => 0)
      ({ m_rows := 2, m_cols := 2, m_data := some 0 } : MatT Int) 3 [some [1, 2, 3, 4]]
      (by decide)
  have ec : cells = [1, 2, 3, 4] := by
    have : some [(1 : Int), 2, 3, 4] = some cells := hc
    injection this with this
    exact this.symm
  subst ec
  have h3 : doubleToInt 3 = 3 := by
    unfold doubleToInt
    rfl
  rw [h3] at hel
  exact ⟨res, h1, he1, he2, hr, hcl, hel, hm⟩

/-- C9, counterexample: on the 1x1 integer matrix holding 2, `m * 0.5`
converts the scalar to the integer 0 before multiplying and yields 0, whereas
the element multiplied by the scalar is 1. -/
theorem MatT.mulScalar_int_counterexample :
    MatT.mulScalar doubleToInt ⟨true, fun _ => 0⟩
        ({ m_rows := 1, m_cols := 1, m_data := some 0 } : MatT Int) (1 / 2) [some [2]] =
      (.ok { m_rows := 1, m_cols := 1, m_data := some 1 }, [some [2], some [0]]) ∧
    MatT.scalarMul doubleToInt ⟨true, fun _ => 0⟩ (1 / 2)
        ({ m_rows := 1, m_cols := 1, m_data := some 0 } : MatT Int) [some [2]] =
      (.ok { m_rows := 1, m_cols := 1, m_data := some 1 }, [some [2], some [0]]) ∧
    ((2 : Int) : ℚ) * (1 / 2) = 1 ∧ ((0 : Int) : ℚ) ≠ ((2 : Int) : ℚ) * (1 / 2) := by
  have hnum : ((1 : ℚ) / 2).num = 1 := by norm_num
  have hden : ((1 : ℚ) / 2).den = 2 := by norm_num
  have hconv : doubleToInt (1 / 2) = 0 := by
    unfold doubleToInt
    rw [hnum, hden]
    rfl
  refine ⟨?_, ?_, by norm_num, by norm_num⟩
  · rw [MatT.mulScalar_eq doubleToInt (fun _ => 0) ({ m_rows := 1, m_cols := 1, m_data := some 0 } : MatT Int)
      (1 / 2) [some [2]]
      (show MatT.elems ({ m_rows := 1, m_cols := 1, m_data := some 0 } : MatT Int) [some [2]] = some [2] from rfl) rfl,
      hconv]
    rfl
  · rw [MatT.scalarMul_eq doubleToInt (fun _ => 0) ({ m_rows := 1, m_cols := 1, m_data := some 0 } : MatT Int)
      (1 / 2) [some [2]]
      (show MatT.elems ({ m_rows := 1, m_cols := 1, m_data := some 0 } : MatT Int) [some [2]] = some [2] from rfl) rfl,
      hconv]
    rfl

/-- C10: `scalar * m` and `m * scalar` are the same computation: on every
input they return the same outcome and heap, and on a valid `m` of any shape
both complete with results of equal `rows()`, `cols()` and elements. -/
theorem MatT.scalarMul_comm {T D : Type} [Mul T] (conv : D → T) (s : D) (m : MatT T)
    (h : Heap T) :
    (∀ nw : NewArray T, MatT.scalarMul conv nw s m h = MatT.mulScalar conv nw m s h) ∧
    (m.Valid h → ∀ indet : Nat → T, ∃ r1 h1 r2 h2 cells,
      MatT.scalarMul conv ⟨true, indet⟩ s m h = (.ok r1, h1) ∧
      MatT.mulScalar conv ⟨true, indet⟩ m s h = (.ok r2, h2) ∧
      r1.rows = r2.rows ∧ r1.cols = r2.cols ∧
      r1.elems h1 = some cells ∧ r2.elems h2 = some cells) := by
  refine ⟨fun _ => rfl, ?_⟩
  intro hm indet
  obtain ⟨cells, hc, hlen⟩ := (MatT.valid_iff m h).1 hm
  exact ⟨_, _, _, _, _, MatT.scalarMul_eq conv indet m s h hc hlen,
    MatT.mulScalar_eq conv indet m s h hc hlen, rfl, rfl, Heap.block_append_new h _,
    Heap.block_append_new h _⟩

/-- Witness of `MatT.scalarMul_comm`: the empty matrix `MatT()` and a 2x1
matrix, each scaled from either side. -/
theorem MatT.scalarMul_comm_witness :
    (MatT.Valid (MatT.ctor : MatT Int) [] ∧
      ∃ r1 h1 r2 h2,
        MatT.scalarMul doubleToInt ⟨true, fun _ => 0⟩ 3 (MatT.ctor : MatT Int) [] = (.ok r1, h1) ∧
        MatT.mulScalar doubleToInt ⟨true, fun _ => 0⟩ (MatT.ctor : MatT Int) 3 [] = (.ok r2, h2) ∧
        r1.rows = r2.rows ∧ r1.cols = r2.cols ∧
        r1.elems h1 = some [] ∧ r2.elems h2 = some []) ∧
    (MatT.Valid ({ m_rows := 2, m_cols := 1, m_data := some 0 } : MatT Int) [some [1, 2]] ∧
      ∃ r1 h1 r2 h2 cells,
        MatT.scalarMul doubleToInt ⟨true, fun _ => 0⟩ 3
          ({ m_rows := 2, m_cols := 1, m_data := some 0 } : MatT Int) [some [1, 2]] =
          (.ok r1, h1) ∧
        MatT.mulScalar doubleToInt ⟨true, fun _ => 0⟩
          ({ m_rows := 2, m_cols := 1, m_data := some 0 } : MatT Int) 3 [some [1, 2]] =
          (.ok r2, h2) ∧
        r1.rows = r2.rows ∧ r1.cols = r2.cols ∧
        r1.elems h1 = some cells ∧ r2.elems h2 = some cells) := by
  refine ⟨⟨by decide, ?_⟩, ⟨by decide, ?_⟩⟩
  · obtain ⟨r1, h1, r2, h2, cells, he1, he2, hr, hc, hel1, hel2⟩ :=
      (MatT.scalarMul_comm doubleToInt 3 (MatT.ctor : MatT Int) []).2 (by decide) (fun _ => 0)
    have hev : MatT.scalarMul doubleToInt ⟨true, fun _ => 0⟩ 3 (MatT.ctor : MatT Int) [] =
        (.ok { m_rows := 0, m_cols := 0, m_data := some 0 }, [some []]) := by
      rw [MatT.scalarMul_eq doubleToInt (fun _ => 0) (MatT.ctor : MatT Int) 3 []
        (show MatT.elems (MatT.ctor : MatT Int) [] = some [] from rfl) rfl]
      rfl
    rw [hev] at he1
    injection he1 with e1 e2
    injection e1 with e1
    subst e1
    subst e2
    have ec : cells = [] := by
      have : some [] = some cells := hel1
      injection this with this
      exact this.symm
    subst ec
    exact ⟨_, _, r2, h2, hev, he2, hr, hc, hel1, hel2⟩
  · exact (MatT.scalarMul_comm doubleToInt 3
      ({ m_rows := 2, m_cols := 1, m_data := some 0 } : MatT Int) [some [1, 2]]).2
      (by decide) (fun _ => 0)

section WorldLemmas

variable {T : Type}

/-- The shape shared by the constructors that allocate and then run a loop. -/
theorem ctorPost_of_loop (nw : NewArray T) (n : Nat)
    (body : Option Nat → Nat → Heap T → Outcome T Unit)
    (hbody : ∀ p i h, Heap.SameExcept p h (body p i h).2) (mk : Option Nat → MatT T)
    (h : Heap T) :
    CtorPost n (mk (some h.length)) h
      (match newArray nw n h with
        | (.error e, h1) => (.error e, h1)
        | (.ok p, h1) =>
          match forLoop (body p) n h1 with
          | (.error e, h2) => (.error e, h2)
          | (.ok _, h2) => (.ok (mk p), h2)) := by
  cases hs : nw.succeeds with
  | false =>
    left
    simp [newArray, hs]
  | true =>
    right
    refine ⟨(List.range n).map nw.indet, by simp, ?_⟩
    have hfr := forLoop_sameExcept (some h.length) (body (some h.length))
      (hbody (some h.length)) n (h ++ [some ((List.range n).map nw.indet)])
    simp only [newArray, hs, Heap.alloc, if_true]
    cases hr : forLoop (body (some h.length)) n (h ++ [some ((List.range n).map nw.indet)]) with
    | mk r h2 =>
      rw [hr] at hfr
      cases r with
      | error e => exact ⟨hfr, Or.inr ⟨e, rfl⟩⟩
      | ok u => exact ⟨hfr, Or.inl rfl⟩

theorem MatT.ctorFill_post (nw : NewArray T) (rows cols : Nat) (v : T) (h : Heap T) :
    CtorPost (sizeMul rows cols) { m_rows := rows, m_cols := cols, m_data := some h.length } h
      (MatT.ctorFill nw rows cols v h) :=
  ctorPost_of_loop nw (sizeMul rows cols) (fun p i => storeAt p i v)
    (fun p i h => storeAt_sameExcept p i v h)
    (fun p => { m_rows := rows, m_cols := cols, m_data := p }) h

theorem MatT.ctorData_post {OT : Type} (cast : OT → T) (nw : NewArray T) (rows cols : Nat)
    (data : List OT) (h : Heap T) :
    CtorPost (sizeMul rows cols) { m_rows := rows, m_cols := cols, m_data := some h.length } h
      (MatT.ctorData cast nw rows cols data h) :=
  ctorPost_of_loop nw (sizeMul rows cols) (fun p => castAt cast p data)
    (fun p i h => castAt_sameExcept cast p data i h)
    (fun p => { m_rows := rows, m_cols := cols, m_data := p }) h

theorem MatT.ctorCopy_post (nw : NewArray T) (other : MatT T) (h : Heap T) :
    CtorPost (sizeMul other.m_rows other.m_cols)
      { m_rows := other.m_rows, m_cols := other.m_cols, m_data := some h.length } h
      (MatT.ctorCopy nw other h) :=
  ctorPost_of_loop nw (sizeMul other.m_rows other.m_cols) (fun p => copyAt p other.m_data)
    (fun p i h => copyAt_sameExcept p other.m_data i h)
    (fun p => { m_rows := other.m_rows, m_cols := other.m_cols, m_data := p }) h

theorem MatT.ctorConv_post (nw : NewArray T) (other : MatT T) (h : Heap T) :
    CtorPost (sizeMul other.m_rows other.m_cols)
      { m_rows := other.m_rows, m_cols := other.m_cols, m_data := some h.length } h
      (MatT.ctorConv nw other h) :=
  MatT.ctorCopy_post nw other h

theorem MatT.ctorSized_post [Inhabited T] (nw : NewArray T) (rows cols : Nat) (h : Heap T) :
    CtorPost (sizeMul rows cols) { m_rows := rows, m_cols := cols, m_data := some h.length } h
      (MatT.ctorSized nw rows cols h) := by
  cases hs : nw.succeeds with
  | false =>
    left
    simp [MatT.ctorSized, newArrayValueInit, hs]
  | true =>
    right
    refine ⟨List.replicate (sizeMul rows cols) default, by simp, ?_⟩
    have hev : MatT.ctorSized nw rows cols h =
        (.ok { m_rows := rows, m_cols := cols, m_data := some h.length },
          h ++ [some (List.replicate (sizeMul rows cols) default)]) := by
      simp [MatT.ctorSized, newArrayValueInit, hs, Heap.alloc]
    rw [hev]
    exact ⟨Heap.SameExcept.refl _ _, Or.inl rfl⟩

/-- Validity survives an allocation followed by writes into arrays. -/
theorem MatT.valid_grow (m : MatT T) {ptr : Option Nat} {h h1 l : Heap T}
    (hs : Heap.SameExcept ptr (h ++ l) h1) (hm : m.Valid h) : m.Valid h1 := by
  apply MatT.valid_sameExcept m hs
  obtain ⟨cells, hc, hlen⟩ := (MatT.valid_iff m h).1 hm
  exact (MatT.valid_iff m _).2 ⟨cells, MatT.elems_append m h l hc, hlen⟩

/-- The object built over the array placed at the next address is valid. -/
theorem MatT.valid_fresh (m : MatT T) {n : Nat} {h h1 : Heap T} {cells : List T}
    (hmd : m.m_data = some h.length) (hn : sizeMul m.m_rows m.m_cols = n)
    (hlen : cells.length = n)
    (hs : Heap.SameExcept (some h.length) (h ++ [some cells]) h1) : m.Valid h1 := by
  unfold MatT.Valid MatT.elems
  rw [hmd]
  simp only []
  rw [hs.2.1 h.length, Heap.block_append_new h cells, hn, ← hlen]
  rfl

end WorldLemmas

section WorldInvariant

variable {T : Type}

theorem World.inv_iff (w : World T) :
    w.Inv ↔ (∀ (i : Nat) (m : MatT T), w.vars[i]? = some m → m.Valid w.heap) ∧
      (∀ (i j : Nat) (a b : MatT T), i ≠ j → w.vars[i]? = some a → w.vars[j]? = some b →
        a.Distinct b) := by
  unfold World.Inv
  constructor
  · rintro ⟨hv, hd⟩
    exact ⟨fun i m hm => hv m (List.mem_iff_getElem?.2 ⟨i, hm⟩), hd⟩
  · rintro ⟨hv, hd⟩
    refine ⟨fun m hm => ?_, hd⟩
    obtain ⟨i, hi⟩ := List.mem_iff_getElem?.1 hm
    exact hv i m hi

/-- A valid object does not hold the array about to be allocated, so it is
distinct from the object built over that array. -/
theorem MatT.distinct_fresh (a m : MatT T) (h : Heap T) (ha : a.Valid h)
    (hmd : m.m_data = some h.length) : a.Distinct m ∧ m.Distinct a := by
  have hne := MatT.data_ne_fresh a h ha
  constructor
  · left
    rw [hmd]
    exact hne
  · left
    rw [hmd]
    exact fun e => hne e.symm

/-- Lookup in the scope after a construction. -/
theorem List.getElem?_append_one {α : Type} (l : List α) (m x : α) (i : Nat)
    (hx : (l ++ [m])[i]? = some x) : l[i]? = some x ∨ (i = l.length ∧ x = m) := by
  by_cases hi : i < l.length
  · rw [List.getElem?_append_left hi] at hx
    exact Or.inl hx
  · rw [List.getElem?_append_right (Nat.le_of_not_lt hi)] at hx
    right
    cases hk : i - l.length with
    | zero => rw [hk] at hx; exact ⟨by omega, by simpa using hx.symm⟩
    | succ k => rw [hk] at hx; simp at hx

/-- Bringing into scope an object that shares no array with those in scope. -/
theorem World.append_inv (vars : List (MatT T)) (m : MatT T) (h : Heap T)
    (hv : ∀ (i : Nat) (x : MatT T), vars[i]? = some x → x.Valid h)
    (hd : ∀ (i j : Nat) (a b : MatT T), i ≠ j → vars[i]? = some a → vars[j]? = some b →
      a.Distinct b)
    (hm : m.Valid h)
    (hnew : ∀ (i : Nat) (a : MatT T), vars[i]? = some a → a.Distinct m ∧ m.Distinct a) :
    World.Inv { vars := vars ++ [m], heap := h } := by
  rw [World.inv_iff]
  constructor
  · intro i x hx
    rcases List.getElem?_append_one vars m x i hx with hx | ⟨_, hx⟩
    · exact hv i x hx
    · rw [hx]
      exact hm
  · intro i j a b hij ha hb
    rcases List.getElem?_append_one vars m a i ha with ha | ⟨hi, ha⟩
    · rcases List.getElem?_append_one vars m b j hb with hb | ⟨_, hb⟩
      · exact hd i j a b hij ha hb
      · rw [hb]
        exact (hnew i a ha).1
    · rcases List.getElem?_append_one vars m b j hb with hb | ⟨hj, _⟩
      · rw [ha]
        exact (hnew j b hb).2
      · omega

/-- The constructor `MatT()` keeps the invariant. -/
theorem World.ctor_inv (w : World T) (hw : w.Inv) :
    World.Inv { vars := w.vars ++ [MatT.ctor], heap := w.heap } := by
  rw [World.inv_iff] at hw
  obtain ⟨hv, hd⟩ := hw
  refine World.append_inv w.vars MatT.ctor w.heap hv hd rfl ?_
  intro i a _
  constructor
  · by_cases hn : a.m_data = none
    · exact Or.inr hn
    · exact Or.inl hn
  · exact Or.inr rfl

/-- A constructor call keeps the invariant, whether it completes or not. -/
theorem World.construct_inv (w : World T) (hw : w.Inv) (n : Nat) (m : MatT T)
    (out : Outcome T (MatT T)) (hpost : CtorPost n m w.heap out)
    (hmd : m.m_data = some w.heap.length) (hn : sizeMul m.m_rows m.m_cols = n) :
    (w.construct out).2.Inv := by
  have hw0 := hw
  rw [World.inv_iff] at hw
  obtain ⟨hv, hd⟩ := hw
  obtain ⟨r, h1⟩ := out
  rcases hpost with ⟨hh, e, he⟩ | ⟨cells, hlen, hs, hr⟩
  · simp only [] at hh he
    subst hh
    subst he
    exact hw0
  · simp only [] at hs hr
    rcases hr with hr | ⟨e, hr⟩
    · subst hr
      simp only [World.construct]
      refine World.append_inv w.vars m h1 (fun i x hx => MatT.valid_grow x hs (hv i x hx)) hd
        (MatT.valid_fresh m hmd hn hlen hs) ?_
      intro i a ha
      exact MatT.distinct_fresh a m w.heap (hv i a ha) hmd
    · subst hr
      simp only [World.construct]
      rw [World.inv_iff]
      exact ⟨fun i x hx => MatT.valid_grow x hs (hv i x hx), hd⟩

/-- An element-writing call keeps the invariant, whether it completes or not. -/
theorem World.mutate_inv (w : World T) (hw : w.Inv) (ptr : Option Nat) (out : Outcome T Unit)
    (hs : Heap.SameExcept ptr w.heap out.2) : (w.mutate out).2.Inv := by
  obtain ⟨hv, hd⟩ := hw
  exact ⟨fun m hm => MatT.valid_sameExcept m hs (hv m hm), hd⟩

end WorldInvariant

section WorldSteps

variable {T : Type}

/-- What an assignment can leave behind: nothing changed (failed `new`), or a
fresh array written and then either the exchange and the deletion of the old
array of the target, or a fault before the exchange. -/
theorem MatT.assign_post (nw : NewArray T) (self other : MatT T) (h : Heap T) :
    (∃ e, MatT.assign nw self other h = (.error e, h)) ∨
    (∃ (cells : List T) (h1 : Heap T), cells.length = sizeMul other.m_rows other.m_cols ∧
      Heap.SameExcept (some h.length) (h ++ [some cells]) h1 ∧
      (MatT.assign nw self other h =
          (.ok { m_rows := other.m_rows, m_cols := other.m_cols, m_data := some h.length },
            h1.release self.m_data) ∨
        ∃ e, MatT.assign nw self other h = (.error e, h1))) := by
  have hpost := MatT.ctorCopy_post nw other h
  unfold MatT.assign
  cases hc : MatT.ctorCopy nw other h with
  | mk r h1 =>
    rw [hc] at hpost
    rcases hpost with ⟨hh, e, he⟩ | ⟨cells, hlen, hs, hr⟩
    · simp only [] at hh he
      subst hh
      subst he
      exact Or.inl ⟨e, rfl⟩
    · simp only [] at hs hr
      right
      refine ⟨cells, h1, hlen, hs, ?_⟩
      rcases hr with hr | ⟨e, hr⟩
      · subst hr
        exact Or.inl rfl
      · subst hr
        exact Or.inr ⟨e, rfl⟩

/-- Assignment keeps the invariant, whether it completes or not. -/
theorem World.assign_inv (w : World T) (hw : w.Inv) (nw : NewArray T) (self : Nat)
    (a b : MatT T) (ha : w.vars[self]? = some a) :
    (w.replace self (MatT.assign nw a b w.heap)).2.Inv := by
  rw [World.inv_iff] at hw ⊢
  obtain ⟨hv, hd⟩ := hw
  rcases MatT.assign_post nw a b w.heap with ⟨e, he⟩ | ⟨cells, h1, hlen, hs, he | ⟨e, he⟩⟩
  · rw [he]
    exact ⟨hv, hd⟩
  · rw [he]
    simp only [World.replace]
    have hself : self < w.vars.length := by
      by_contra hlt
      rw [List.getElem?_eq_none (Nat.le_of_not_lt hlt)] at ha
      simp at ha
    have hafresh := MatT.data_ne_fresh a w.heap (hv self a ha)
    constructor
    · intro i x hx
      rw [List.getElem?_set] at hx
      by_cases hi : self = i
      · rw [if_pos hi, if_pos hself] at hx
        injection hx with hx
        subst hx
        rw [MatT.valid_iff]
        have hnew := MatT.valid_fresh
          ({ m_rows := b.m_rows, m_cols := b.m_cols, m_data := some w.heap.length } : MatT T)
          rfl rfl hlen hs
        obtain ⟨c1, hc1, hl1⟩ := (MatT.valid_iff _ _).1 hnew
        refine ⟨c1, ?_, hl1⟩
        simp only [MatT.elems] at hc1 ⊢
        rw [Heap.block_release_ne _ _ hafresh]
        exact hc1
      · rw [if_neg hi] at hx
        have hx1 := MatT.valid_grow x hs (hv i x hx)
        have hax : a.Distinct x := hd self i a x hi ha hx
        unfold MatT.Valid MatT.elems at hx1 ⊢
        cases hq : x.m_data with
        | none => rw [hq] at hx1; exact hx1
        | some q =>
          rw [hq] at hx1
          simp only [] at hx1 ⊢
          rw [Heap.block_release_ne _ _ (hax.ne hq)]
          exact hx1
    · intro i j x y hij hx hy
      rw [List.getElem?_set] at hx hy
      by_cases hi : self = i
      · rw [if_pos hi, if_pos hself] at hx
        injection hx with hx
        subst hx
        have hj : ¬ self = j := fun e => hij (hi.symm.trans e)
        rw [if_neg hj] at hy
        exact (MatT.distinct_fresh y _ w.heap (hv j y hy) rfl).2
      · rw [if_neg hi] at hx
        by_cases hj : self = j
        · rw [if_pos hj, if_pos hself] at hy
          injection hy with hy
          subst hy
          exact (MatT.distinct_fresh x _ w.heap (hv i x hx) rfl).1
        · rw [if_neg hj] at hy
          exact hd i j x y hij hx hy
  · rw [he]
    simp only [World.replace]
    exact ⟨fun i x hx => MatT.valid_grow x hs (hv i x hx), hd⟩

/-- Lookup after the exchange of the objects at two positions. -/
theorem List.getElem?_set_set_swap {α : Type} (l : List α) (s o : Nat) (a b : α)
    (ha : l[s]? = some a) (hb : l[o]? = some b) (i : Nat) :
    ((l.set s b).set o a)[i]? = l[if i = o then s else if i = s then o else i]? := by
  have hs : s < l.length := by
    by_contra hlt
    rw [List.getElem?_eq_none (Nat.le_of_not_lt hlt)] at ha
    simp at ha
  have ho : o < l.length := by
    by_contra hlt
    rw [List.getElem?_eq_none (Nat.le_of_not_lt hlt)] at hb
    simp at hb
  rw [List.getElem?_set]
  by_cases hio : i = o
  · rw [if_pos hio.symm, if_pos hio, if_pos (by rw [List.length_set]; exact ho), ha]
  · rw [if_neg (fun e => hio e.symm), if_neg hio, List.getElem?_set]
    by_cases his : i = s
    · rw [if_pos his.symm, if_pos his, if_pos hs, hb]
    · rw [if_neg (fun e => his e.symm), if_neg his]

/-- The member `swap` keeps the invariant. -/
theorem World.swap_inv (w : World T) (hw : w.Inv) (self other : Nat) (a b : MatT T)
    (ha : w.vars[self]? = some a) (hb : w.vars[other]? = some b) :
    World.Inv { vars := (w.vars.set self (MatT.swap a b).1).set other (MatT.swap a b).2,
                heap := w.heap } := by
  rw [World.inv_iff] at hw ⊢
  obtain ⟨hv, hd⟩ := hw
  have h1 : (MatT.swap a b).1 = b := rfl
  have h2 : (MatT.swap a b).2 = a := rfl
  rw [h1, h2]
  simp only []
  constructor
  · intro i x hx
    rw [List.getElem?_set_set_swap w.vars self other a b ha hb] at hx
    exact hv _ x hx
  · intro i j x y hij hx hy
    rw [List.getElem?_set_set_swap w.vars self other a b ha hb] at hx hy
    refine hd _ _ x y ?_ hx hy
    split_ifs <;> omega

/-- Every operation keeps the invariant, whether it completes or not. -/
theorem World.step_inv [Inhabited T] [Add T] [Sub T] [Mul T] (w : World T) (hw : w.Inv)
    (op : Op T) : (w.step op).2.Inv := by
  cases op with
  | ctor => exact World.ctor_inv w hw
  | ctorSized nw rows cols =>
    exact World.construct_inv w hw _ _ _ (MatT.ctorSized_post nw rows cols w.heap) rfl rfl
  | ctorFill nw rows cols v =>
    exact World.construct_inv w hw _ _ _ (MatT.ctorFill_post nw rows cols v w.heap) rfl rfl
  | ctorData OT cast nw rows cols data =>
    exact World.construct_inv w hw _ _ _ (MatT.ctorData_post cast nw rows cols data w.heap) rfl rfl
  | ctorCopy nw other =>
    simp only [World.step]
    cases hb : w.vars[other]? with
    | none => exact hw
    | some b => exact World.construct_inv w hw _ _ _ (MatT.ctorCopy_post nw b w.heap) rfl rfl
  | ctorConv nw other =>
    simp only [World.step]
    cases hb : w.vars[other]? with
    | none => exact hw
    | some b => exact World.construct_inv w hw _ _ _ (MatT.ctorConv_post nw b w.heap) rfl rfl
  | assign nw self other =>
    simp only [World.step]
    cases ha : w.vars[self]? with
    | none => exact hw
    | some a =>
      cases hb : w.vars[other]? with
      | none => exact hw
      | some b => exact World.assign_inv w hw nw self a b ha
  | assignConv nw self other =>
    simp only [World.step]
    cases ha : w.vars[self]? with
    | none => exact hw
    | some a =>
      cases hb : w.vars[other]? with
      | none => exact hw
      | some b => exact World.assign_inv w hw nw self a b ha
  | fill self value =>
    simp only [World.step]
    cases ha : w.vars[self]? with
    | none => exact hw
    | some a => exact World.mutate_inv w hw _ _ (MatT.fill_sameExcept a value w.heap)
  | swap self other =>
    simp only [World.step]
    cases ha : w.vars[self]? with
    | none => exact hw
    | some a =>
      cases hb : w.vars[other]? with
      | none => exact hw
      | some b => exact World.swap_inv w hw self other a b ha hb
  | addAssign self rhs =>
    simp only [World.step]
    cases ha : w.vars[self]? with
    | none => exact hw
    | some a =>
      cases hb : w.vars[rhs]? with
      | none => exact hw
      | some b => exact World.mutate_inv w hw _ _ (MatT.addAssign_sameExcept a b w.heap)
  | subAssign self rhs =>
    simp only [World.step]
    cases ha : w.vars[self]? with
    | none => exact hw
    | some a =>
      cases hb : w.vars[rhs]? with
      | none => exact hw
      | some b => exact World.mutate_inv w hw _ _ (MatT.subAssign_sameExcept a b w.heap)
  | mulAssign self scalar =>
    simp only [World.step]
    cases ha : w.vars[self]? with
    | none => exact hw
    | some a => exact World.mutate_inv w hw _ _ (MatT.mulAssign_sameExcept a scalar w.heap)
  | put self row col v =>
    simp only [World.step]
    cases ha : w.vars[self]? with
    | none => exact hw
    | some a => exact World.mutate_inv w hw _ _ (MatT.put_sameExcept a row col v w.heap)

end WorldSteps

section WorldRuns

variable {T : Type}

/-- Every run keeps the invariant, however it ends. -/
theorem World.run_inv [Inhabited T] [Add T] [Sub T] [Mul T] (ops : List (Op T)) :
    ∀ w : World T, w.Inv → (w.run ops).2.Inv := by
  induction ops with
  | nil => exact fun w hw => hw
  | cons op rest ih =>
    intro w hw
    have hstep := World.step_inv w hw op
    rw [World.run]
    cases hr : w.step op with
    | mk r w1 =>
      rw [hr] at hstep
      cases r with
      | ok u => exact ih w1 hstep
      | error e =>
        cases e with
        | assertion => exact hstep
        | invalidAccess => exact hstep
        | badAlloc => exact ih w1 hstep

theorem World.empty_inv : World.Inv ({ vars := [], heap := [] } : World T) := by
  constructor
  · intro m hm
    simp at hm
  · intro i j a b _ ha
    simp at ha

end WorldRuns

/-- C4: starting with no object, after any sequence of constructor calls and
mutating operations (assignment, converting assignment, `fill`, `swap`, `+=`,
`-=`, `*=`, element writes), completed or stopped by a fault, every object in
scope owns a live array whose length is `rows() * cols()`, the product taken
in `size_t`. -/
theorem World.buffer_length_invariant {T : Type} [Inhabited T] [Add T] [Sub T] [Mul T]
    (ops : List (Op T)) (m : MatT T)
    (hm : m ∈ (World.run { vars := [], heap := [] } ops).2.vars) :
    ∃ cells, m.elems (World.run { vars := [], heap := [] } ops).2.heap = some cells ∧
      cells.length = sizeMul m.rows m.cols :=
  (MatT.valid_iff m _).1 ((World.run_inv ops _ World.empty_inv).1 m hm)

/-- Witness of `World.buffer_length_invariant`: `a = MatT(2, 2, 5)`,
`b = MatT(3, 1)`, `a += a`, `a = b`, `a.swap(b)`; afterwards the object at
position 1 is 3x1 and owns the three-element array at address 2. -/
theorem World.buffer_length_invariant_witness :
    ({ m_rows := 3, m_cols := 1, m_data := some 2 } : MatT Int) ∈
      (World.run { vars := [], heap := [] }
        [Op.ctorFill ⟨true, fun _ => 0⟩ 2 2 5, Op.ctorSized ⟨true, fun _ => 0⟩ 3 1,
          Op.addAssign 0 0, Op.assign ⟨true, fun _ => 0⟩ 0 1, Op.swap 0 1]).2.vars ∧
    ∃ cells, MatT.elems ({ m_rows := 3, m_cols := 1, m_data := some 2 } : MatT Int)
        (World.run { vars := [], heap := [] }
          [Op.ctorFill ⟨true, fun _ => 0⟩ 2 2 5, Op.ctorSized ⟨true, fun _ => 0⟩ 3 1,
            Op.addAssign 0 0, Op.assign ⟨true, fun _ => 0⟩ 0 1, Op.swap 0 1]).2.heap =
        some cells ∧
      cells.length = sizeMul 3 1 :=
  ⟨by decide, World.buffer_length_invariant _ _ (by decide)⟩

/-- C5: what the converting constructor does where its body is well-formed
(`OT = T`): on a valid source it builds a matrix with the same `rows()` and
`cols()` whose elements are the source's elements as they are; no conversion
is applied to them. -/
theorem MatT.ctorConv_copies {T : Type} (indet : Nat → T) (other : MatT T) (h : Heap T)
    (ho : other.Valid h) :
    ∃ c h1, MatT.ctorConv ⟨true, indet⟩ other h = (.ok c, h1) ∧
      c.rows = other.rows ∧ c.cols = other.cols ∧ c.elems h1 = other.elems h := by
  obtain ⟨cells, hc, hlen⟩ := (MatT.valid_iff other h).1 ho
  refine ⟨_, _, MatT.ctorCopy_eq indet other h hc hlen, rfl, rfl, ?_⟩
  rw [hc]
  exact Heap.block_append_new h cells

/-- Witness of `MatT.ctorConv_copies`: a 2x1 source `[1, 2]`. -/
theorem MatT.ctorConv_copies_witness :
    MatT.Valid ({ m_rows := 2, m_cols := 1, m_data := some 0 } : MatT Int) [some [1, 2]] ∧
    ∃ c h1, MatT.ctorConv ⟨true, fun _ => 0⟩
        ({ m_rows := 2, m_cols := 1, m_data := some 0 } : MatT Int) [some [1, 2]] = (.ok c, h1) ∧
      c.rows = 2 ∧ c.cols = 1 ∧ c.elems h1 = some [1, 2] :=
  ⟨by decide, MatT.ctorConv_copies (fun _ => 0)
    ({ m_rows := 2, m_cols := 1, m_data := some 0 } : MatT Int) [some [1, 2]] (by decide)⟩

section ExactResults

variable {T : Type}

/-- Writing back the elements a valid matrix already has changes nothing. -/
theorem MatT.setElems_self (m : MatT T) (h : Heap T) {cells : List T}
    (hc : m.elems h = some cells) : m.setElems cells h = h := by
  unfold MatT.setElems
  unfold MatT.elems at hc
  cases hd : m.m_data with
  | none => rfl
  | some p =>
    rw [hd] at hc
    exact Heap.set_block_self hc

/-- The elements after the array of a valid matrix has been rewritten. -/
theorem MatT.elems_setElems (m : MatT T) (h : Heap T) {cells news : List T}
    (hc : m.elems h = some cells) (hlen : news.length = cells.length) :
    m.elems (m.setElems news h) = some news := by
  unfold MatT.setElems
  unfold MatT.elems at hc ⊢
  cases hd : m.m_data with
  | none =>
    rw [hd] at hc
    injection hc with hc
    subst hc
    rw [List.eq_nil_of_length_eq_zero hlen]
  | some p =>
    rw [hd] at hc
    exact Heap.block_set_self h _ (Heap.block_lt hc)

/-- Rewriting the array of `m` is a write through `m_data` only. -/
theorem MatT.setElems_sameExcept (m : MatT T) (h : Heap T) {cells news : List T}
    (hc : m.elems h = some cells) (hlen : news.length = cells.length) :
    Heap.SameExcept m.m_data h (m.setElems news h) := by
  unfold MatT.setElems
  unfold MatT.elems at hc
  cases hd : m.m_data with
  | none => exact Heap.SameExcept.refl _ _
  | some p =>
    rw [hd] at hc
    simp only [] at hc ⊢
    have hlt := Heap.block_lt hc
    refine ⟨List.length_set _ _ _, ?_, ?_⟩
    · intro q
      by_cases hq : p = q
      · subst hq
        rw [Heap.block_set_self h _ hlt, hc]
        simp [hlen]
      · rw [Heap.block_set_ne h _ hq]
    · intro q hq
      exact Heap.block_set_ne h _ (fun e => hq (by rw [e]))

/-- The member `fill` on a valid matrix, in full. -/
theorem MatT.fill_eq (m : MatT T) (value : T) (h : Heap T) (hm : m.Valid h) :
    m.fill value h =
      (.ok (), m.setElems (List.replicate (sizeMul m.m_rows m.m_cols) value) h) := by
  obtain ⟨cells, hc, hlen⟩ := (MatT.valid_iff m h).1 hm
  unfold MatT.fill MatT.setElems
  unfold MatT.elems at hc
  cases hd : m.m_data with
  | none =>
    rw [hd] at hc
    injection hc with hc
    subst hc
    rw [← hlen]
    rfl
  | some p =>
    rw [hd] at hc
    simp only [] at hc ⊢
    rw [← hlen]
    exact forLoop_storeAt hc value

/-- The member `*=` on a valid matrix, in full. -/
theorem MatT.mulAssign_valid_eq [Mul T] (m : MatT T) (scalar : T) (h : Heap T)
    {cells : List T} (hc : m.elems h = some cells)
    (hlen : cells.length = sizeMul m.m_rows m.m_cols) :
    m.mulAssign scalar h = (.ok (), m.setElems (cells.map (fun l => l * scalar)) h) := by
  unfold MatT.setElems
  unfold MatT.elems at hc
  cases hd : m.m_data with
  | none =>
    rw [hd] at hc
    injection hc with hc
    subst hc
    unfold MatT.mulAssign
    rw [← hlen]
    rfl
  | some p =>
    rw [hd] at hc
    exact MatT.mulAssign_eq m scalar h hd hc hlen

end ExactResults

/-- C12: for every valid matrix `m` and value `v`, `m.fill(v)` completes and
leaves every one of the `rows() * cols()` elements (`size_t` product) equal
to `v`; it writes no data member and no other array, so `rows()` and `cols()`
stay; on a matrix with no elements the heap is exactly as before. -/
theorem MatT.fill_spec {T : Type} (m : MatT T) (v : T) (h : Heap T) (hm : m.Valid h) :
    ∃ h1, m.fill v h = (.ok (), h1) ∧
      m.elems h1 = some (List.replicate (sizeMul m.rows m.cols) v) ∧
      m.Valid h1 ∧ Heap.SameExcept m.m_data h h1 ∧
      (sizeMul m.rows m.cols = 0 → h1 = h) := by
  obtain ⟨cells, hc, hlen⟩ := (MatT.valid_iff m h).1 hm
  have hl : (List.replicate (sizeMul m.m_rows m.m_cols) v).length = cells.length := by
    rw [List.length_replicate, hlen]
  have hel := MatT.elems_setElems m h hc hl
  have hfr := MatT.setElems_sameExcept m h hc hl
  refine ⟨_, MatT.fill_eq m v h hm, hel, MatT.valid_sameExcept m hfr hm, hfr, ?_⟩
  intro hz
  unfold MatT.rows MatT.cols at hz
  rw [hz] at hlen ⊢
  rw [List.eq_nil_of_length_eq_zero hlen] at hc
  exact MatT.setElems_self m h hc

/-- Witness of `MatT.fill_spec`: a 2x2 matrix `[1, 2, 3, 4]` filled with 7, and
the empty matrix `MatT()` filled with 7. -/
theorem MatT.fill_spec_witness :
    (MatT.Valid ({ m_rows := 2, m_cols := 2, m_data := some 0 } : MatT Int)
        [some [1, 2, 3, 4]] ∧
      ∃ h1, MatT.fill ({ m_rows := 2, m_cols := 2, m_data := some 0 } : MatT Int) 7
          [some [1, 2, 3, 4]] = (.ok (), h1) ∧
        MatT.elems ({ m_rows := 2, m_cols := 2, m_data := some 0 } : MatT Int) h1 =
          some [7, 7, 7, 7]) ∧
    (MatT.Valid (MatT.ctor : MatT Int) [some [1, 2, 3, 4]] ∧
      ∃ h1, MatT.fill (MatT.ctor : MatT Int) 7 [some [1, 2, 3, 4]] = (.ok (), h1) ∧
        MatT.elems (MatT.ctor : MatT Int) h1 = some [] ∧ h1 = [some [1, 2, 3, 4]]) := by
  refine ⟨⟨by decide, ?_⟩, ⟨by decide, ?_⟩⟩
  · obtain ⟨h1, he, hel, _, _, _⟩ :=
      MatT.fill_spec ({ m_rows := 2, m_cols := 2, m_data := some 0 } : MatT Int) 7
        [some [1, 2, 3, 4]] (by decide)
    exact ⟨h1, he, hel⟩
  · obtain ⟨h1, he, hel, _, _, hz⟩ :=
      MatT.fill_spec (MatT.ctor : MatT Int) 7 [some [1, 2, 3, 4]] (by decide)
    exact ⟨h1, he, hel, hz (by decide)⟩

/-- C13: for every valid matrix `m` of any dimensions, 0x0 included, and every
scalar `s`, `m *= s` has no assertion and completes, replacing each element by
the old element times `s`; it writes no data member and no other array, so
`rows()` and `cols()` stay. -/
theorem MatT.mulAssign_spec {T : Type} [Mul T] (m : MatT T) (s : T) (h : Heap T)
    (hm : m.Valid h) :
    ∃ cells h1, m.elems h = some cells ∧ m.mulAssign s h = (.ok (), h1) ∧
      m.elems h1 = some (cells.map (fun l => l * s)) ∧
      m.Valid h1 ∧ Heap.SameExcept m.m_data h h1 := by
  obtain ⟨cells, hc, hlen⟩ := (MatT.valid_iff m h).1 hm
  have hl : (cells.map (fun l => l * s)).length = cells.length := List.length_map _ _
  have hfr := MatT.setElems_sameExcept m h hc hl
  exact ⟨cells, _, hc, MatT.mulAssign_valid_eq m s h hc hlen, MatT.elems_setElems m h hc hl,
    MatT.valid_sameExcept m hfr hm, hfr⟩

/-- Witness of `MatT.mulAssign_spec`: a 2x2 matrix `[1, 2, 3, 4]` times 3, and
the empty matrix `MatT()` times 3. -/
theorem MatT.mulAssign_spec_witness :
    (MatT.Valid ({ m_rows := 2, m_cols := 2, m_data := some 0 } : MatT Int)
        [some [1, 2, 3, 4]] ∧
      ∃ h1, MatT.mulAssign ({ m_rows := 2, m_cols := 2, m_data := some 0 } : MatT Int) 3
          [some [1, 2, 3, 4]] = (.ok (), h1) ∧
        MatT.elems ({ m_rows := 2, m_cols := 2, m_data := some 0 } : MatT Int) h1 =
          some [3, 6, 9, 12]) ∧
    (MatT.Valid (MatT.ctor : MatT Int) [] ∧
      ∃ h1, MatT.mulAssign (MatT.ctor : MatT Int) 3 [] = (.ok (), h1) ∧
        MatT.elems (MatT.ctor : MatT Int) h1 = some []) := by
  refine ⟨⟨by decide, ?_⟩, ⟨by decide, ?_⟩⟩
  · obtain ⟨cells, h1, hc, he, hel, _, _⟩ :=
      MatT.mulAssign_spec ({ m_rows := 2, m_cols := 2, m_data := some 0 } : MatT Int) 3
        [some [1, 2, 3, 4]] (by decide)
    have ec : cells = [1, 2, 3, 4] := by
      have : some [(1 : Int), 2, 3, 4] = some cells := hc
      injection this with this
      exact this.symm
    subst ec
    exact ⟨h1, he, hel⟩
  · obtain ⟨cells, h1, hc, he, hel, _, _⟩ :=
      MatT.mulAssign_spec (MatT.ctor : MatT Int) 3 [] (by decide)
    have ec : cells = [] := by
      have : some ([] : List Int) = some cells := hc
      injection this with this
      exact this.symm
    subst ec
    exact ⟨h1, he, hel⟩

/-- C11: the member `a.swap(b)`, on the objects at positions `i` and `j` of
the scope (the same object when `i = j`): afterwards `a` has the former
`rows()`, `cols()`, array and elements of `b`, and `b` those of `a`; the heap
is untouched, so no element is copied or changed, and every other object is
as before. -/
theorem World.swap_exchanges {T : Type} [Inhabited T] [Add T] [Sub T] [Mul T] (w : World T)
    (i j : Nat) (a b : MatT T) (ha : w.vars[i]? = some a) (hb : w.vars[j]? = some b) :
    ∃ w1 a1 b1, w.step (.swap i j) = (.ok (), w1) ∧ w1.heap = w.heap ∧
      w1.vars[i]? = some a1 ∧ w1.vars[j]? = some b1 ∧
      a1.rows = b.rows ∧ a1.cols = b.cols ∧ a1.data = b.data ∧
      a1.elems w1.heap = b.elems w.heap ∧
      b1.rows = a.rows ∧ b1.cols = a.cols ∧ b1.data = a.data ∧
      b1.elems w1.heap = a.elems w.heap ∧
      (∀ k, k ≠ i → k ≠ j → w1.vars[k]? = w.vars[k]?) := by
  have hstep : w.step (.swap i j) =
      (.ok (), { vars := (w.vars.set i b).set j a, heap := w.heap }) := by
    simp only [World.step, ha, hb, MatT.swap_eq]
  have hlook := List.getElem?_set_set_swap w.vars i j a b ha hb
  refine ⟨_, b, a, hstep, rfl, ?_, ?_, rfl, rfl, rfl, rfl, rfl, rfl, rfl, rfl, ?_⟩
  · simp only []
    rw [hlook i]
    by_cases hij : i = j
    · rw [if_pos hij]
      subst hij
      exact hb
    · rw [if_neg hij, if_pos rfl]
      exact hb
  · simp only []
    rw [hlook j, if_pos rfl]
    exact ha
  · intro k hki hkj
    simp only []
    rw [hlook k, if_neg hkj, if_neg hki]

/-- Witness of `World.swap_exchanges`: `a` is 2x2 over `[1, 2, 3, 4]` and `b` is
3x3 over nine 9s; after `a.swap(b)`, `a` is 3x3 with the 9s and `b` is 2x2
with `[1, 2, 3, 4]`, each array where it was. -/
theorem World.swap_exchanges_witness :
    ∃ w1 a1 b1,
      World.step (T := Int)
        { vars := [{ m_rows := 2, m_cols := 2, m_data := some 0 },
                   { m_rows := 3, m_cols := 3, m_data := some 1 }],
          heap := [some [1, 2, 3, 4], some [9, 9, 9, 9, 9, 9, 9, 9, 9]] }
        (.swap 0 1) = (.ok (), w1) ∧
      w1.heap = [some [1, 2, 3, 4], some [9, 9, 9, 9, 9, 9, 9, 9, 9]] ∧
      w1.vars[0]? = some a1 ∧ w1.vars[1]? = some b1 ∧
      a1.rows = 3 ∧ a1.cols = 3 ∧ a1.elems w1.heap = some [9, 9, 9, 9, 9, 9, 9, 9, 9] ∧
      b1.rows = 2 ∧ b1.cols = 2 ∧ b1.elems w1.heap = some [1, 2, 3, 4] := by
  obtain ⟨w1, a1, b1, hs, hh, h0, h1, har, hac, _, hae, hbr, hbc, _, hbe, _⟩ :=
    World.swap_exchanges (T := Int)
      { vars := [{ m_rows := 2, m_cols := 2, m_data := some 0 },
                 { m_rows := 3, m_cols := 3, m_data := some 1 }],
        heap := [some [1, 2, 3, 4], some [9, 9, 9, 9, 9, 9, 9, 9, 9]] }
      0 1 { m_rows := 2, m_cols := 2, m_data := some 0 }
      { m_rows := 3, m_cols := 3, m_data := some 1 } rfl rfl
  exact ⟨w1, a1, b1, hs, hh, h0, h1, har, hac, hae, hbr, hbc, hbe⟩

section AssertionLemmas

variable {T : Type}

theorem storeAt_no_assertion (ptr : Option Nat) (i : Nat) (v : T) (h : Heap T) :
    (storeAt ptr i v h).1 ≠ .error Fault.assertion := by
  unfold storeAt
  cases h.store ptr i v <;> simp

theorem combineAt_no_assertion (op : T → T → T) (dst src : Option Nat) (i : Nat) (h : Heap T) :
    (combineAt op dst src i h).1 ≠ .error Fault.assertion := by
  unfold combineAt
  cases h.load src i with
  | none => simp
  | some r =>
    cases h.load dst i with
    | none => simp
    | some l => exact storeAt_no_assertion _ _ _ _

/-- A loop whose iterations contain no `assert` does not stop on one. -/
theorem forLoop_no_assertion (body : Nat → Heap T → Outcome T Unit)
    (hbody : ∀ i h, (body i h).1 ≠ .error Fault.assertion) (n : Nat) (h : Heap T) :
    (forLoop body n h).1 ≠ .error Fault.assertion := by
  induction n with
  | zero => simp [forLoop]
  | succ n ih =>
    rw [forLoop]
    cases hr : forLoop body n h with
    | mk r h1 =>
      rw [hr] at ih
      cases r with
      | error e => exact ih
      | ok u => exact hbody n h1

end AssertionLemmas

/-- C14: for every `a` and `b`, `a += b` stops on its assertion if and only if
the dimensions differ, that is, the assertion holds exactly when
`a.rows() == b.rows()` and `a.cols() == b.cols()`; likewise `a -= b`; with
mismatched dimensions each stops on the assertion with the heap, and so the
elements of `a`, exactly as before. -/
theorem MatT.addAssign_subAssign_shape_check {T : Type} [Add T] [Sub T] (a b : MatT T)
    (h : Heap T) :
    ((a.addAssign b h).1 = .error Fault.assertion ↔ ¬ (a.rows = b.rows ∧ a.cols = b.cols)) ∧
    ((a.subAssign b h).1 = .error Fault.assertion ↔ ¬ (a.rows = b.rows ∧ a.cols = b.cols)) ∧
    (¬ (a.rows = b.rows ∧ a.cols = b.cols) →
      a.addAssign b h = (.error Fault.assertion, h) ∧
      a.subAssign b h = (.error Fault.assertion, h)) := by
  unfold MatT.rows MatT.cols
  by_cases hdim : a.m_rows = b.m_rows ∧ a.m_cols = b.m_cols
  · refine ⟨⟨fun he => ?_, fun hn => absurd hdim hn⟩, ⟨fun he => ?_, fun hn => absurd hdim hn⟩,
      fun hn => absurd hdim hn⟩
    · unfold MatT.addAssign at he
      rw [if_pos hdim] at he
      exact absurd he (forLoop_no_assertion _ (fun i h => combineAt_no_assertion _ _ _ i h) _ _)
    · unfold MatT.subAssign at he
      rw [if_pos hdim] at he
      exact absurd he (forLoop_no_assertion _ (fun i h => combineAt_no_assertion _ _ _ i h) _ _)
  · have hadd : a.addAssign b h = (.error Fault.assertion, h) := by
      unfold MatT.addAssign
      rw [if_neg hdim]
    have hsub : a.subAssign b h = (.error Fault.assertion, h) := by
      unfold MatT.subAssign
      rw [if_neg hdim]
    refine ⟨⟨fun _ => hdim, fun _ => ?_⟩, ⟨fun _ => hdim, fun _ => ?_⟩, fun _ => ⟨hadd, hsub⟩⟩
    · rw [hadd]
    · rw [hsub]

/-- Witness of `MatT.addAssign_subAssign_shape_check`: a 2x2 matrix and a 3x3
matrix; both `+=` and `-=` stop on the assertion and the heap is as it was. -/
theorem MatT.addAssign_subAssign_shape_check_witness :
    ¬ (MatT.rows ({ m_rows := 2, m_cols := 2, m_data := some 0 } : MatT Int) =
        MatT.rows ({ m_rows := 3, m_cols := 3, m_data := some 1 } : MatT Int) ∧
       MatT.cols ({ m_rows := 2, m_cols := 2, m_data := some 0 } : MatT Int) =
        MatT.cols ({ m_rows := 3, m_cols := 3, m_data := some 1 } : MatT Int)) ∧
    MatT.addAssign ({ m_rows := 2, m_cols := 2, m_data := some 0 } : MatT Int)
        { m_rows := 3, m_cols := 3, m_data := some 1 }
        [some [5, 5, 5, 5], some [1, 1, 1, 1, 1, 1, 1, 1, 1]] =
      (.error Fault.assertion, [some [5, 5, 5, 5], some [1, 1, 1, 1, 1, 1, 1, 1, 1]]) ∧
    MatT.subAssign ({ m_rows := 2, m_cols := 2, m_data := some 0 } : MatT Int)
        { m_rows := 3, m_cols := 3, m_data := some 1 }
        [some [5, 5, 5, 5], some [1, 1, 1, 1, 1, 1, 1, 1, 1]] =
      (.error Fault.assertion, [some [5, 5, 5, 5], some [1, 1, 1, 1, 1, 1, 1, 1, 1]]) :=
  ⟨by decide,
    (MatT.addAssign_subAssign_shape_check
      ({ m_rows := 2, m_cols := 2, m_data := some 0 } : MatT Int)
      { m_rows := 3, m_cols := 3, m_data := some 1 }
      [some [5, 5, 5, 5], some [1, 1, 1, 1, 1, 1, 1, 1, 1]]).2.2 (by decide)⟩

/-- C15: element access at `(row, col)`, read or write, stops on its assertion
if and only if `row < rows()` and `col < cols()` do not both hold; an
out-of-range access is that assertion failure, never an element, and a write
leaves the heap as it was; so every access to a matrix with a zero dimension
stops on the assertion. -/
theorem MatT.access_range_check {T : Type} (m : MatT T) (row col : Nat) (v : T) (h : Heap T) :
    (m.get row col h = .error Fault.assertion ↔ ¬ (row < m.rows ∧ col < m.cols)) ∧
    ((m.put row col v h).1 = .error Fault.assertion ↔ ¬ (row < m.rows ∧ col < m.cols)) ∧
    (¬ (row < m.rows ∧ col < m.cols) → m.put row col v h = (.error Fault.assertion, h)) ∧
    ((m.rows = 0 ∨ m.cols = 0) → m.get row col h = .error Fault.assertion ∧
      m.put row col v h = (.error Fault.assertion, h)) := by
  unfold MatT.rows MatT.cols
  have hget : ¬ (row < m.m_rows ∧ col < m.m_cols) → m.get row col h = .error Fault.assertion := by
    intro hn
    unfold MatT.get
    rw [if_neg hn]
  have hput : ¬ (row < m.m_rows ∧ col < m.m_cols) →
      m.put row col v h = (.error Fault.assertion, h) := by
    intro hn
    unfold MatT.put
    rw [if_neg hn]
  refine ⟨⟨fun he => ?_, hget⟩, ⟨fun he => ?_, fun hn => by rw [hput hn]⟩, hput, ?_⟩
  · intro hin
    unfold MatT.get at he
    rw [if_pos hin] at he
    cases hl : h.load m.m_data (m.offset row col) with
    | none => rw [hl] at he; simp at he
    | some x => rw [hl] at he; simp at he
  · intro hin
    unfold MatT.put at he
    rw [if_pos hin] at he
    exact storeAt_no_assertion _ _ _ _ he
  · intro hz
    have hn : ¬ (row < m.m_rows ∧ col < m.m_cols) := by
      rintro ⟨hr, hc⟩
      rcases hz with hz | hz <;> omega
    exact ⟨hget hn, hput hn⟩

/-- Witness of `MatT.access_range_check`: on a 2x2 matrix the access at
`(2, 0)` stops on the assertion; on a 0x5 matrix the access at `(0, 0)` does. -/
theorem MatT.access_range_check_witness :
    (¬ (2 < MatT.rows ({ m_rows := 2, m_cols := 2, m_data := some 0 } : MatT Int) ∧
        0 < MatT.cols ({ m_rows := 2, m_cols := 2, m_data := some 0 } : MatT Int)) ∧
      MatT.get ({ m_rows := 2, m_cols := 2, m_data := some 0 } : MatT Int) 2 0
        [some [1, 2, 3, 4]] = .error Fault.assertion ∧
      MatT.put ({ m_rows := 2, m_cols := 2, m_data := some 0 } : MatT Int) 2 0 7
        [some [1, 2, 3, 4]] = (.error Fault.assertion, [some [1, 2, 3, 4]])) ∧
    ((MatT.rows ({ m_rows := 0, m_cols := 5, m_data := some 0 } : MatT Int) = 0 ∨
        MatT.cols ({ m_rows := 0, m_cols := 5, m_data := some 0 } : MatT Int) = 0) ∧
      MatT.get ({ m_rows := 0, m_cols := 5, m_data := some 0 } : MatT Int) 0 0 [some []] =
        .error Fault.assertion) := by
  have h1 := MatT.access_range_check
    ({ m_rows := 2, m_cols := 2, m_data := some 0 } : MatT Int) 2 0 7 [some [1, 2, 3, 4]]
  have h2 := MatT.access_range_check
    ({ m_rows := 0, m_cols := 5, m_data := some 0 } : MatT Int) 0 0 7 [some []]
  exact ⟨⟨by decide, h1.1.2 (by decide), h1.2.2.1 (by decide)⟩,
    ⟨Or.inl rfl, (h2.2.2.2 (Or.inl rfl)).1⟩⟩

section FailedNew

variable {T : Type}

/-- When `new` fails the copy constructor stops before anything is written. -/
theorem MatT.ctorCopy_badAlloc (nw : NewArray T) (hs : nw.succeeds = false) (other : MatT T)
    (h : Heap T) : MatT.ctorCopy nw other h = (.error Fault.badAlloc, h) := by
  simp [MatT.ctorCopy, newArray, hs]

/-- When `new` fails the assignment stops before the exchange. -/
theorem MatT.assign_badAlloc (nw : NewArray T) (hs : nw.succeeds = false) (self other : MatT T)
    (h : Heap T) : MatT.assign nw self other h = (.error Fault.badAlloc, h) := by
  unfold MatT.assign
  rw [MatT.ctorCopy_badAlloc nw hs]

/-- Assignment on a valid source when `new` succeeds. -/
theorem MatT.assign_succeeds (nw : NewArray T) (hs : nw.succeeds = true) (self other : MatT T)
    (h : Heap T) {cells : List T} (hc : other.elems h = some cells)
    (hlen : cells.length = sizeMul other.m_rows other.m_cols) :
    MatT.assign nw self other h =
      (.ok { m_rows := other.m_rows, m_cols := other.m_cols, m_data := some h.length },
        Heap.release (h ++ [some cells]) self.m_data) := by
  cases nw with
  | mk s indet =>
    simp only [] at hs
    subst hs
    exact MatT.assign_eq indet self other h hc hlen

theorem World.valid_of_inv (w : World T) (hw : w.Inv) (i : Nat) (m : MatT T)
    (hm : w.vars[i]? = some m) : m.Valid w.heap :=
  hw.1 m (List.mem_iff_getElem?.2 ⟨i, hm⟩)

end FailedNew

/-- C16: in a state satisfying the class invariant, with `new` free to fail,
the assignment `a = b` (same-type, and converting at `OT = T`) has two
outcomes only.  Either `new` succeeds and the call completes, `a` then having
the `rows()`, `cols()` and elements of `b`; or `new` fails and the call stops
with the whole state, fields of `a` and every array, exactly as before. -/
theorem World.assign_atomic {T : Type} [Inhabited T] [Add T] [Sub T] [Mul T] (w : World T)
    (hw : w.Inv) (nw : NewArray T) (i j : Nat) (a b : MatT T)
    (ha : w.vars[i]? = some a) (hb : w.vars[j]? = some b) :
    (nw.succeeds = true ∧ ∃ a1 h1,
      w.step (.assign nw i j) = (.ok (), { vars := w.vars.set i a1, heap := h1 }) ∧
      w.step (.assignConv nw i j) = (.ok (), { vars := w.vars.set i a1, heap := h1 }) ∧
      a1.rows = b.rows ∧ a1.cols = b.cols ∧ a1.elems h1 = b.elems w.heap ∧ a1.Valid h1) ∨
    (nw.succeeds = false ∧
      w.step (.assign nw i j) = (.error Fault.badAlloc, w) ∧
      w.step (.assignConv nw i j) = (.error Fault.badAlloc, w)) := by
  have hva := World.valid_of_inv w hw i a ha
  have hvb := World.valid_of_inv w hw j b hb
  cases hs : nw.succeeds with
  | false =>
    right
    refine ⟨rfl, ?_, ?_⟩
    · simp only [World.step, ha, hb, MatT.assign_badAlloc nw hs, World.replace]
    · simp only [World.step, ha, hb, MatT.assignConv_eq, MatT.assign_badAlloc nw hs,
        World.replace]
  | true =>
    left
    obtain ⟨cells, hc, hlen⟩ := (MatT.valid_iff b w.heap).1 hvb
    have hfresh := MatT.data_ne_fresh a w.heap hva
    have hnew : Heap.block (Heap.release (w.heap ++ [some cells]) a.m_data) w.heap.length =
        some cells := by
      rw [Heap.block_release_ne _ _ hfresh]
      exact Heap.block_append_new w.heap cells
    refine ⟨rfl, { m_rows := b.m_rows, m_cols := b.m_cols, m_data := some w.heap.length },
      Heap.release (w.heap ++ [some cells]) a.m_data, ?_, ?_, rfl, rfl, ?_, ?_⟩
    · simp only [World.step, ha, hb, MatT.assign_succeeds nw hs a b w.heap hc hlen,
        World.replace]
    · simp only [World.step, ha, hb, MatT.assignConv_eq,
        MatT.assign_succeeds nw hs a b w.heap hc hlen, World.replace]
    · rw [hc]
      exact hnew
    · rw [MatT.valid_iff]
      exact ⟨cells, hnew, hlen⟩

/-- Witness of `World.assign_atomic`: `a` is 1x1 over `[7]`, `b` is 2x1 over
`[1, 2]`; with a failing `new` the step `a = b` returns the state it was
given, with a succeeding `new` it completes. -/
theorem World.assign_atomic_witness :
    World.Inv ({ vars := [{ m_rows := 1, m_cols := 1, m_data := some 0 },
                           { m_rows := 2, m_cols := 1, m_data := some 1 }],
                 heap := [some [7], some [1, 2]] } : World Int) ∧
    World.step ({ vars := [{ m_rows := 1, m_cols := 1, m_data := some 0 },
                            { m_rows := 2, m_cols := 1, m_data := some 1 }],
                  heap := [some [7], some [1, 2]] } : World Int)
        (.assign ⟨false, fun _ => 0⟩ 0 1) =
      (.error Fault.badAlloc,
        { vars := [{ m_rows := 1, m_cols := 1, m_data := some 0 },
                   { m_rows := 2, m_cols := 1, m_data := some 1 }],
          heap := [some [7], some [1, 2]] }) ∧
    ∃ a1 h1,
      World.step ({ vars := [{ m_rows := 1, m_cols := 1, m_data := some 0 },
                              { m_rows := 2, m_cols := 1, m_data := some 1 }],
                    heap := [some [7], some [1, 2]] } : World Int)
          (.assign ⟨true, fun _ => 0⟩ 0 1) =
        (.ok (), { vars := [a1, { m_rows := 2, m_cols := 1, m_data := some 1 }], heap := h1 }) ∧
      a1.rows = 2 ∧ a1.cols = 1 ∧ a1.elems h1 = some [1, 2] := by
  have hinv : World.Inv ({ vars := [{ m_rows := 1, m_cols := 1, m_data := some 0 },
                                     { m_rows := 2, m_cols := 1, m_data := some 1 }],
                           heap := [some [7], some [1, 2]] } : World Int) := by
    rw [World.inv_iff]
    constructor
    · intro i m hm
      match i, hm with
      | 0, hm => injection hm with hm; subst hm; decide
      | 1, hm => injection hm with hm; subst hm; decide
      | k + 2, hm => simp at hm
    · intro i j x y hij hx hy
      match i, j, hx, hy with
      | 0, 0, _, _ => exact absurd rfl hij
      | 1, 1, _, _ => exact absurd rfl hij
      | 0, 1, hx, hy =>
        injection hx with hx; injection hy with hy; subst hx; subst hy; decide
      | 1, 0, hx, hy =>
        injection hx with hx; injection hy with hy; subst hx; subst hy; decide
      | k + 2, _, hx, _ => simp at hx
      | 0, k + 2, _, hy => simp at hy
      | 1, k + 2, _, hy => simp at hy
  refine ⟨hinv, ?_, ?_⟩
  · rcases World.assign_atomic _ hinv ⟨false, fun _ => 0⟩ 0 1 _ _ rfl rfl with
      ⟨hs, _⟩ | ⟨_, hfail, _⟩
    · exact absurd hs (by decide)
    · exact hfail
  · rcases World.assign_atomic _ hinv ⟨true, fun _ => 0⟩ 0 1 _ _ rfl rfl with
      ⟨_, a1, h1, hok, _, hr, hc, hel, _⟩ | ⟨hs, _⟩
    · exact ⟨a1, h1, hok, hr, hc, hel⟩
    · exact absurd hs (by decide)

/-- C17 (as amended): starting with no object, after any sequence of
constructor calls and mutating operations, every object in scope with a zero
dimension (`rows() == 0` or `cols() == 0`) has no elements; `rows()` and
`cols()` report what the object was given, the default constructor giving
zero for both. -/
theorem World.zero_dimension_empty {T : Type} [Inhabited T] [Add T] [Sub T] [Mul T]
    (ops : List (Op T)) (m : MatT T)
    (hm : m ∈ (World.run { vars := [], heap := [] } ops).2.vars)
    (hz : m.rows = 0 ∨ m.cols = 0) :
    m.elems (World.run { vars := [], heap := [] } ops).2.heap = some [] ∧
    (MatT.ctor : MatT T).rows = 0 ∧ (MatT.ctor : MatT T).cols = 0 := by
  refine ⟨?_, rfl, rfl⟩
  obtain ⟨cells, hc, hlen⟩ :=
    (MatT.valid_iff m _).1 ((World.run_inv ops _ World.empty_inv).1 m hm)
  have hzero : sizeMul m.m_rows m.m_cols = 0 := by
    unfold MatT.rows MatT.cols at hz
    unfold sizeMul
    rcases hz with hz | hz <;> rw [hz] <;> simp
  rw [hzero] at hlen
  rw [hc, List.eq_nil_of_length_eq_zero hlen]

/-- Witness of `World.zero_dimension_empty`: after `MatT(0, 5)`, `MatT()` and a
copy of the first, the 0x5 object at address 0 is in scope and has no
elements. -/
theorem World.zero_dimension_empty_witness :
    (({ m_rows := 0, m_cols := 5, m_data := some 0 } : MatT Int) ∈
        (World.run { vars := [], heap := [] }
          [Op.ctorSized ⟨true, fun _ => 0⟩ 0 5, Op.ctor,
            Op.ctorCopy ⟨true, fun _ => 0⟩ 0]).2.vars ∧
      (MatT.rows ({ m_rows := 0, m_cols := 5, m_data := some 0 } : MatT Int) = 0 ∨
        MatT.cols ({ m_rows := 0, m_cols := 5, m_data := some 0 } : MatT Int) = 0)) ∧
    MatT.elems ({ m_rows := 0, m_cols := 5, m_data := some 0 } : MatT Int)
        (World.run { vars := [], heap := [] }
          [Op.ctorSized ⟨true, fun _ => 0⟩ 0 5, Op.ctor,
            Op.ctorCopy ⟨true, fun _ => 0⟩ 0]).2.heap = some [] :=
  ⟨⟨by decide, Or.inl rfl⟩,
    (World.zero_dimension_empty
      [Op.ctorSized ⟨true, fun _ => 0⟩ 0 5, Op.ctor, Op.ctorCopy ⟨true, fun _ => 0⟩ 0]
      ({ m_rows := 0, m_cols := 5, m_data := some 0 } : MatT Int) (by decide) (Or.inl rfl)).1⟩

/-- C17, counterexample: `MatT(0, 5)` has a zero dimension and an empty array,
and reports `rows() == 0` but `cols() == 5`; its copy reports the same. -/
theorem MatT.ctorSized_zero_rows_counterexample :
    MatT.ctorSized (T := Int) ⟨true, fun _ => 0⟩ 0 5 [] =
      (.ok { m_rows := 0, m_cols := 5, m_data := some 0 }, [some []]) ∧
    MatT.rows ({ m_rows := 0, m_cols := 5, m_data := some 0 } : MatT Int) = 0 ∧
    MatT.cols ({ m_rows := 0, m_cols := 5, m_data := some 0 } : MatT Int) = 5 ∧
    MatT.elems ({ m_rows := 0, m_cols := 5, m_data := some 0 } : MatT Int) [some []] =
      some [] ∧
    MatT.ctorCopy ⟨true, fun _ => 0⟩ ({ m_rows := 0, m_cols := 5, m_data := some 0 } : MatT Int)
        [some []] =
      (.ok { m_rows := 0, m_cols := 5, m_data := some 1 }, [some [], some []]) := by
  decide

section OffsetLemmas

variable {T : Type}

theorem MatT.offset_inj_aux (R r1 c1 r2 c2 : Nat) (h1 : r1 < R) (h2 : r2 < R)
    (he : r1 + c1 * R = r2 + c2 * R) : r1 = r2 ∧ c1 = c2 := by
  have hR : 0 < R := by omega
  have hm1 : (r1 + c1 * R) % R = r1 := by
    rw [Nat.add_mul_mod_self_right, Nat.mod_eq_of_lt h1]
  have hm2 : (r2 + c2 * R) % R = r2 := by
    rw [Nat.add_mul_mod_self_right, Nat.mod_eq_of_lt h2]
  have hr : r1 = r2 := by rw [← hm1, ← hm2, he]
  refine ⟨hr, ?_⟩
  subst hr
  have : c1 * R = c2 * R := by omega
  exact Nat.eq_of_mul_eq_mul_right hR this

end OffsetLemmas

/-- C18: when `rows * cols` does not overflow `size_t`, the offset
`row + col * rows` computed by element access maps the valid positions
`row < rows`, `col < cols` one-to-one onto the indices below `rows * cols`:
it stays below `rows * cols`, distinct positions get distinct offsets, every
index is the offset of a valid position, and on a valid matrix every valid
access returns an element. -/
theorem MatT.offset_bijective {T : Type} (m : MatT T) (hsize : m.rows * m.cols < 2 ^ 64) :
    (∀ row col, row < m.rows → col < m.cols →
      m.offset row col = row + col * m.rows ∧ m.offset row col < m.rows * m.cols) ∧
    (∀ r1 c1 r2 c2, r1 < m.rows → c1 < m.cols → r2 < m.rows → c2 < m.cols →
      m.offset r1 c1 = m.offset r2 c2 → r1 = r2 ∧ c1 = c2) ∧
    (∀ i, i < m.rows * m.cols →
      ∃ row col, row < m.rows ∧ col < m.cols ∧ m.offset row col = i) ∧
    (∀ h, m.Valid h → ∀ row col, row < m.rows → col < m.cols →
      ∃ v, m.get row col h = .ok v) := by
  unfold MatT.rows MatT.cols at *
  have hoff := fun row col hr hc => MatT.offset_eq m row col hsize hr hc
  refine ⟨?_, ?_, ?_, ?_⟩
  · intro row col hr hc
    have := hoff row col hr hc
    exact ⟨this.1, by rw [this.1]; exact this.2⟩
  · intro r1 c1 r2 c2 hr1 hc1 hr2 hc2 he
    rw [(hoff r1 c1 hr1 hc1).1, (hoff r2 c2 hr2 hc2).1] at he
    exact MatT.offset_inj_aux m.m_rows r1 c1 r2 c2 hr1 hr2 he
  · intro i hi
    have hR : 0 < m.m_rows := by
      rcases Nat.eq_zero_or_pos m.m_rows with h0 | h0
      · rw [h0] at hi; simp at hi
      · exact h0
    have hrow : i % m.m_rows < m.m_rows := Nat.mod_lt i hR
    have hcol : i / m.m_rows < m.m_cols := by
      rw [Nat.div_lt_iff_lt_mul hR, Nat.mul_comm]
      exact hi
    refine ⟨i % m.m_rows, i / m.m_rows, hrow, hcol, ?_⟩
    rw [(hoff _ _ hrow hcol).1]
    exact Nat.mod_add_div' i m.m_rows
  · intro h hm row col hr hc
    obtain ⟨cells, hcells, hlen⟩ := (MatT.valid_iff m h).1 hm
    have hlt : m.offset row col < cells.length := by
      rw [hlen, (hoff row col hr hc).1]
      unfold sizeMul
      rw [Nat.mod_eq_of_lt hsize]
      exact (hoff row col hr hc).2
    unfold MatT.elems at hcells
    cases hd : m.m_data with
    | none =>
      rw [hd] at hcells
      injection hcells with hcells
      subst hcells
      simp at hlt
    | some p =>
      rw [hd] at hcells
      exact ⟨cells.get ⟨_, hlt⟩,
        MatT.get_of_block m hd hcells row col hr hc (List.getElem?_eq_getElem hlt)⟩

/-- Witness of `MatT.offset_bijective`: a 2x3 matrix over `[1, 2, 3, 4, 5, 6]`;
position `(1, 2)` has offset 5, index 3 is the offset of a valid position, and
the access at `(1, 2)` returns an element. -/
theorem MatT.offset_bijective_witness :
    (MatT.rows ({ m_rows := 2, m_cols := 3, m_data := some 0 } : MatT Int) *
        MatT.cols ({ m_rows := 2, m_cols := 3, m_data := some 0 } : MatT Int) < 2 ^ 64 ∧
      MatT.Valid ({ m_rows := 2, m_cols := 3, m_data := some 0 } : MatT Int)
        [some [1, 2, 3, 4, 5, 6]]) ∧
    MatT.offset ({ m_rows := 2, m_cols := 3, m_data := some 0 } : MatT Int) 1 2 = 1 + 2 * 2 ∧
    (∃ row col, row < 2 ∧ col < 3 ∧
      MatT.offset ({ m_rows := 2, m_cols := 3, m_data := some 0 } : MatT Int) row col = 3) ∧
    (∃ v, MatT.get ({ m_rows := 2, m_cols := 3, m_data := some 0 } : MatT Int) 1 2
      [some [1, 2, 3, 4, 5, 6]] = .ok v) := by
  have hb := MatT.offset_bijective
    ({ m_rows := 2, m_cols := 3, m_data := some 0 } : MatT Int) (by decide)
  exact ⟨⟨by decide, by decide⟩, (hb.1 1 2 (by decide) (by decide)).1,
    hb.2.2.1 3 (by decide), hb.2.2.2 [some [1, 2, 3, 4, 5, 6]] (by decide) 1 2
      (by decide) (by decide)⟩

/-- C19: with `size_t` arithmetic modulo `2 ^ 64` there are `rows` and `cols`
(`rows = cols = 2 ^ 32`) for which both sized constructors allocate
`rows * cols mod 2 ^ 64` elements, fewer than the `rows * cols` positions
the access assertion accepts, so that an access satisfying `row < rows` and
`col < cols` computes an offset outside the array. -/
theorem MatT.sized_constructors_overflow :
    ∃ (rows cols : Nat) (m : MatT Int) (h1 : Heap Int) (cells : List Int) (row col : Nat),
      rows < 2 ^ 64 ∧ cols < 2 ^ 64 ∧
      MatT.ctorSized ⟨true, fun _ => 0⟩ rows cols [] = (.ok m, h1) ∧
      MatT.ctorFill ⟨true, fun _ => 0⟩ rows cols 7 [] = (.ok m, h1) ∧
      m.rows = rows ∧ m.cols = cols ∧
      m.elems h1 = some cells ∧ cells.length = (rows * cols) % 2 ^ 64 ∧
      cells.length < rows * cols ∧
      row < m.rows ∧ col < m.cols ∧ cells.length ≤ m.offset row col ∧
      m.get row col h1 = .error Fault.invalidAccess :=
  ⟨2 ^ 32, 2 ^ 32, { m_rows := 2 ^ 32, m_cols := 2 ^ 32, m_data := some 0 }, [some []], [],
    0, 0, by decide, by decide, by decide, by decide, rfl, rfl, rfl, by decide, by decide,
    by decide, by decide, by decide, by decide⟩

section RoundTripLemmas

variable {T : Type}

theorem MatT.setElems_setElems (m : MatT T) (c1 c2 : List T) (h : Heap T) :
    m.setElems c2 (m.setElems c1 h) = m.setElems c2 h := by
  unfold MatT.setElems
  cases m.m_data with
  | none => rfl
  | some p => exact List.set_set _ _ _ _

/-- The loop shared by `+=` and `-=` on valid operands of equal dimensions, in full. -/
theorem MatT.combine_eq (op : T → T → T) (a b : MatT T) (h : Heap T) {as bs : List T}
    (has : a.elems h = some as) (hbs : b.elems h = some bs)
    (hla : as.length = sizeMul a.m_rows a.m_cols) (hlb : bs.length = as.length) :
    forLoop (combineAt op a.m_data b.m_data) (sizeMul a.m_rows a.m_cols) h =
      (.ok (), a.setElems (List.zipWith op as bs) h) := by
  unfold MatT.setElems
  unfold MatT.elems at has hbs
  cases hpa : a.m_data with
  | none =>
    rw [hpa] at has
    injection has with has
    subst has
    rw [← hla]
    rfl
  | some p =>
    rw [hpa] at has
    simp only [] at has ⊢
    cases hpb : b.m_data with
    | none =>
      rw [hpb] at hbs
      injection hbs with hbs
      subst hbs
      have hnil : as = [] := List.eq_nil_of_length_eq_zero hlb.symm
      subst hnil
      rw [← hla]
      simp only [List.zipWith_nil_right, List.length_nil, forLoop]
      rw [Heap.set_block_self has]
    | some q =>
      rw [hpb] at hbs
      simp only [] at hbs
      rw [← hla]
      exact forLoop_combineAt op has hbs hlb

theorem List.zipWith_sub_zipWith_add [AddGroup T] (as bs : List T)
    (hlen : bs.length = as.length) :
    List.zipWith (fun l r => l - r) (List.zipWith (fun l r => l + r) as bs) bs = as := by
  induction as generalizing bs with
  | nil => simp
  | cons x xs ih =>
    cases bs with
    | nil => simp at hlen
    | cons y ys =>
      simp only [List.zipWith_cons_cons, List.cons.injEq]
      exact ⟨add_sub_cancel_right x y, ih ys (by simpa using hlen)⟩

theorem List.zipWith_add_zipWith_sub [AddGroup T] (as bs : List T)
    (hlen : bs.length = as.length) :
    List.zipWith (fun l r => l + r) (List.zipWith (fun l r => l - r) as bs) bs = as := by
  induction as generalizing bs with
  | nil => simp
  | cons x xs ih =>
    cases bs with
    | nil => simp at hlen
    | cons y ys =>
      simp only [List.zipWith_cons_cons, List.cons.injEq]
      exact ⟨sub_add_cancel x y, ih ys (by simpa using hlen)⟩

/-- One combining loop followed by the loop that undoes it, on two objects. -/
theorem MatT.combine_roundtrip (op inv : T → T → T) (a b : MatT T) (h : Heap T)
    (ha : a.Valid h) (hb : b.Valid h) (hrows : a.m_rows = b.m_rows)
    (hcols : a.m_cols = b.m_cols) (hd : a.Distinct b)
    (hinv : ∀ as bs : List T, bs.length = as.length →
      List.zipWith inv (List.zipWith op as bs) bs = as) :
    ∃ h1, forLoop (combineAt op a.m_data b.m_data) (sizeMul a.m_rows a.m_cols) h = (.ok (), h1) ∧
      forLoop (combineAt inv a.m_data b.m_data) (sizeMul a.m_rows a.m_cols) h1 = (.ok (), h) := by
  obtain ⟨as, has, hla⟩ := (MatT.valid_iff a h).1 ha
  obtain ⟨bs, hbs, hlb⟩ := (MatT.valid_iff b h).1 hb
  have hlen : bs.length = as.length := by rw [hla, hlb, hrows, hcols]
  have hz : (List.zipWith op as bs).length = as.length := by
    simp [List.length_zipWith, hlen]
  have hfr := MatT.setElems_sameExcept a h has hz
  have has1 := MatT.elems_setElems a h has hz
  have hbs1 : b.elems (a.setElems (List.zipWith op as bs) h) = some bs := by
    rw [MatT.elems_sameExcept b hfr (fun p hp => hd.ne hp)]
    exact hbs
  refine ⟨_, MatT.combine_eq op a b h has hbs hla hlen, ?_⟩
  rw [MatT.combine_eq inv a b _ has1 hbs1 (by rw [hz, hla]) (by rw [hz, hlen]),
    MatT.setElems_setElems, hinv as bs hlen, MatT.setElems_self a h has]

end RoundTripLemmas

/-- C20 (as amended): for an element type whose `+` and `-` form a group (the
integers, exact, or the integers modulo `2 ^ w`, wrapping) and two distinct
valid matrix objects `a` and `b` of identical dimensions, `a += b` followed by
`a -= b` completes
and leaves the heap, and so the elements of `a`, exactly as at the start, and
so does `a -= b` followed by `a += b`; no data member is written, so the
dimensions of `a` stay. -/
theorem MatT.addAssign_subAssign_roundtrip {T : Type} [AddGroup T] (a b : MatT T) (h : Heap T)
    (ha : a.Valid h) (hb : b.Valid h) (hrows : a.rows = b.rows) (hcols : a.cols = b.cols)
    (hd : a.Distinct b) :
    (∃ h1, a.addAssign b h = (.ok (), h1) ∧ a.subAssign b h1 = (.ok (), h)) ∧
    (∃ h1, a.subAssign b h = (.ok (), h1) ∧ a.addAssign b h1 = (.ok (), h)) := by
  unfold MatT.rows at hrows
  unfold MatT.cols at hcols
  unfold MatT.addAssign MatT.subAssign
  simp only [if_pos (And.intro hrows hcols)]
  exact ⟨MatT.combine_roundtrip _ _ a b h ha hb hrows hcols hd
      (fun as bs hl => List.zipWith_sub_zipWith_add as bs hl),
    MatT.combine_roundtrip _ _ a b h ha hb hrows hcols hd
      (fun as bs hl => List.zipWith_add_zipWith_sub as bs hl)⟩

/-- Witness of `MatT.addAssign_subAssign_roundtrip`: over the integers, `a` a
2x1 matrix `[5, -3]` and `b` a 2x1 matrix `[2, 10]`. -/
theorem MatT.addAssign_subAssign_roundtrip_witness :
    (MatT.Valid ({ m_rows := 2, m_cols := 1, m_data := some 0 } : MatT Int)
        [some [5, -3], some [2, 10]] ∧
      MatT.Valid ({ m_rows := 2, m_cols := 1, m_data := some 1 } : MatT Int)
        [some [5, -3], some [2, 10]] ∧
      MatT.Distinct ({ m_rows := 2, m_cols := 1, m_data := some 0 } : MatT Int)
        { m_rows := 2, m_cols := 1, m_data := some 1 }) ∧
    (∃ h1, MatT.addAssign ({ m_rows := 2, m_cols := 1, m_data := some 0 } : MatT Int)
        { m_rows := 2, m_cols := 1, m_data := some 1 } [some [5, -3], some [2, 10]] =
        (.ok (), h1) ∧
      MatT.subAssign ({ m_rows := 2, m_cols := 1, m_data := some 0 } : MatT Int)
        { m_rows := 2, m_cols := 1, m_data := some 1 } h1 =
        (.ok (), [some [5, -3], some [2, 10]])) ∧
    (∃ h1, MatT.subAssign ({ m_rows := 2, m_cols := 1, m_data := some 0 } : MatT Int)
        { m_rows := 2, m_cols := 1, m_data := some 1 } [some [5, -3], some [2, 10]] =
        (.ok (), h1) ∧
      MatT.addAssign ({ m_rows := 2, m_cols := 1, m_data := some 0 } : MatT Int)
        { m_rows := 2, m_cols := 1, m_data := some 1 } h1 =
        (.ok (), [some [5, -3], some [2, 10]])) :=
  ⟨by decide, MatT.addAssign_subAssign_roundtrip
    ({ m_rows := 2, m_cols := 1, m_data := some 0 } : MatT Int)
    { m_rows := 2, m_cols := 1, m_data := some 1 } [some [5, -3], some [2, 10]]
    (by decide) (by decide) rfl rfl (by decide)⟩

/-- C20, counterexample: when `b` is `a` itself (a pair of identical
dimensions), `a += a` doubles the elements and `a -= a` then leaves zeros:
the 2x1 matrix `[1, 2]` ends as `[0, 0]`. -/
theorem MatT.addAssign_subAssign_same_object_counterexample :
    MatT.Valid ({ m_rows := 2, m_cols := 1, m_data := some 0 } : MatT Int) [some [1, 2]] ∧
    MatT.addAssign ({ m_rows := 2, m_cols := 1, m_data := some 0 } : MatT Int)
        { m_rows := 2, m_cols := 1, m_data := some 0 } [some [1, 2]] =
      (.ok (), [some [2, 4]]) ∧
    MatT.subAssign ({ m_rows := 2, m_cols := 1, m_data := some 0 } : MatT Int)
        { m_rows := 2, m_cols := 1, m_data := some 0 } [some [2, 4]] =
      (.ok (), [some [0, 0]]) ∧
    MatT.elems ({ m_rows := 2, m_cols := 1, m_data := some 0 } : MatT Int) [some [0, 0]] ≠
      MatT.elems ({ m_rows := 2, m_cols := 1, m_data := some 0 } : MatT Int) [some [1, 2]] := by
  decide

/-- The round trip in wrapping arithmetic: over the integers modulo `2 ^ 8`,
`[200] += [100]` wraps to `[44]` and `-= [100]` gives `[200]` back. -/
theorem MatT.addAssign_subAssign_roundtrip_mod256 :
    MatT.addAssign ({ m_rows := 1, m_cols := 1, m_data := some 0 } : MatT (ZMod 256))
        { m_rows := 1, m_cols := 1, m_data := some 1 } [some [200], some [100]] =
      (.ok (), [some [44], some [100]]) ∧
    MatT.subAssign ({ m_rows := 1, m_cols := 1, m_data := some 0 } : MatT (ZMod 256))
        { m_rows := 1, m_cols := 1, m_data := some 1 } [some [44], some [100]] =
      (.ok (), [some [200], some [100]]) := by
  decide
